import Mathlib

/-!
Verification development for the core storage subsystem of an instructional
relational engine (buffer pool manager, LRU-K replacer, disk-resident
extendible hash table, copy-on-write trie).

Each C++ source file is shallowly embedded as executable Lean definitions:
machine integers become `Nat`/`Int` with explicit wrap-around where it
matters, stateful code becomes explicit state passing, and fallible code
returns `Option`.  Page ids are `Int` with `-1` as the `INVALID_PAGE_ID`
sentinel.  Frame ids and timestamps are `Nat`.
-/

set_option autoImplicit false

namespace BusTub

/-- The reserved sentinel page id (`INVALID_PAGE_ID` in `common/config.h`). -/
def INVALID_PAGE_ID : Int := -1

/-! ## LRU-K replacer (`src/buffer/lru_k_replacer.cpp`)

A node's `history` is the bounded deque of its last up-to-`k` access
timestamps, oldest first: `history.head` is the C++ `history_.front()`
and the last element is `history_.back()`. -/

structure LRUKNode where
  fid : Nat
  history : List Nat
  is_evictable : Bool
  deriving Repr, DecidableEq

/-- Embeds `LRUKNode::Access`: append the timestamp, truncating to the last `k`. -/
def LRUKNode.access (k : Nat) (n : LRUKNode) (ts : Nat) : LRUKNode :=
  let h := n.history ++ [ts]
  { n with history := if h.length > k then h.tail else h }

/-- Embeds `LRUKNode::SetEvictable`: set the flag, reporting whether it changed. -/
def LRUKNode.setFlag (n : LRUKNode) (evictable : Bool) : Bool × LRUKNode :=
  (evictable != n.is_evictable, { n with is_evictable := evictable })

/-- Embeds `LRUKNode::operator<`: `a < b` means `a` is evicted in preference to `b`.
A node with fewer than `k` accesses compares by its most recent timestamp
against other such nodes and beats every node with full history; two nodes
with full history compare by their oldest retained timestamp. -/
def LRUKNode.lt (k : Nat) (a b : LRUKNode) : Bool :=
  if a.history.length < k then
    if b.history.length < k then a.history.getLastD 0 < b.history.getLastD 0
    else true
  else
    if b.history.length < k then false
    else a.history.headD 0 < b.history.headD 0

structure LRUKReplacer where
  node_store : List LRUKNode
  current_timestamp : Nat
  curr_size : Nat
  replacer_size : Nat
  k : Nat
  deriving Repr, DecidableEq

/-- A replacer as built by `LRUKReplacer(num_frames, k)`. -/
def LRUKReplacer.new (num_frames k : Nat) : LRUKReplacer :=
  { node_store := [], current_timestamp := 0, curr_size := 0,
    replacer_size := num_frames, k := k }

/-- The linear scan inside `LRUKReplacer::Evict`: the best victim among the
evictable nodes seen so far, where a later node replaces the accumulator
only when it compares strictly smaller. -/
def LRUKReplacer.findVictim (k : Nat) : List LRUKNode → Option LRUKNode → Option LRUKNode
  | [], acc => acc
  | n :: rest, acc =>
    if n.is_evictable then
      match acc with
      | none => findVictim k rest (some n)
      | some v => findVictim k rest (if LRUKNode.lt k n v then some n else some v)
    else
      findVictim k rest acc

/-- Look up the node of a frame id in the store. -/
def LRUKReplacer.findNode (r : LRUKReplacer) (fid : Nat) : Option LRUKNode :=
  r.node_store.find? (fun n => n.fid == fid)

/-- Embeds `LRUKReplacer::Evict`: scan all nodes for the minimal evictable one,
erase it and decrement `curr_size`.  `none` when nothing is evictable. -/
def LRUKReplacer.evict (r : LRUKReplacer) : Option (Nat × LRUKReplacer) :=
  match LRUKReplacer.findVictim r.k r.node_store none with
  | none => none
  | some v =>
    some (v.fid,
      { r with node_store := r.node_store.filter (fun n => n.fid != v.fid),
               curr_size := r.curr_size - 1 })

/-- Embeds `LRUKReplacer::RecordAccess`: `try_emplace` the node (a fresh node starts
with empty history and not evictable), append the current timestamp to its
history, then advance the timestamp. -/
def LRUKReplacer.recordAccess (r : LRUKReplacer) (fid : Nat) : LRUKReplacer :=
  let store :=
    match r.findNode fid with
    | some _ =>
      r.node_store.map (fun n =>
        if n.fid == fid then n.access r.k r.current_timestamp else n)
    | none =>
      r.node_store ++ [LRUKNode.access r.k ⟨fid, [], false⟩ r.current_timestamp]
  { r with node_store := store, current_timestamp := r.current_timestamp + 1 }

/-- Embeds `LRUKReplacer::SetEvictable`: `node_store_.at` throws when the frame has
no node (`none` here); otherwise update the flag and adjust `curr_size` on a
transition. -/
def LRUKReplacer.setEvictable (r : LRUKReplacer) (fid : Nat) (evictable : Bool) :
    Option LRUKReplacer :=
  match r.findNode fid with
  | none => none
  | some n =>
    let changed := (n.setFlag evictable).1
    let store := r.node_store.map (fun m =>
      if m.fid == fid then (m.setFlag evictable).2 else m)
    let size :=
      if changed then (if evictable then r.curr_size + 1 else r.curr_size - 1)
      else r.curr_size
    some { r with node_store := store, curr_size := size }

/-- Embeds `LRUKReplacer::Remove`: a silent no-op when the frame has no node;
throws (`none`) when the node is present but not evictable; otherwise erase
the node and decrement `curr_size`. -/
def LRUKReplacer.remove (r : LRUKReplacer) (fid : Nat) : Option LRUKReplacer :=
  match r.findNode fid with
  | none => some r
  | some n =>
    if n.is_evictable then
      some { r with node_store := r.node_store.filter (fun m => m.fid != fid),
                    curr_size := r.curr_size - 1 }
    else
      none

/-- Embeds `LRUKReplacer::Size`. -/
def LRUKReplacer.size (r : LRUKReplacer) : Nat := r.curr_size

/-! ## Copy-on-write trie (`src/primer/trie.cpp`)

A node holds an optional value payload (`TrieNodeWithValue` in the source,
with `is_value_node_` true exactly when the payload is present) and a map
from characters to children (`std::map<char, shared_ptr<const TrieNode>>`).
The source is generic over the payload type with a `dynamic_cast` at the
terminal; we instantiate one payload type (`Nat`), under which the cast
always succeeds on a value node. -/

inductive TrieNode where
  | mk (value : Option Nat) (children : List (Char × TrieNode))
  deriving Repr

def TrieNode.value : TrieNode → Option Nat
  | .mk v _ => v

def TrieNode.children : TrieNode → List (Char × TrieNode)
  | .mk _ c => c

/-- Embeds `children_.count(k)` / `children_.at(k)`: look up a child by character. -/
def childGet : List (Char × TrieNode) → Char → Option TrieNode
  | [], _ => none
  | (a, b) :: t, c => if a = c then some b else childGet t c

/-- Embeds `children_[k] = node`: update the binding of `k`, inserting when absent. -/
def childSet : List (Char × TrieNode) → Char → TrieNode → List (Char × TrieNode)
  | [], c, nd => [(c, nd)]
  | (a, b) :: t, c, nd => if a = c then (c, nd) :: t else (a, b) :: childSet t c nd

/-- Embeds `children_.erase(k)`: drop the binding of `k`. -/
def childErase : List (Char × TrieNode) → Char → List (Char × TrieNode)
  | [], _ => []
  | (a, b) :: t, c => if a = c then t else (a, b) :: childErase t c

/-- A `Trie` is a handle to a possibly null root. -/
structure Trie where
  root : Option TrieNode
  deriving Repr

/-- The walk inside `Trie::Get`: follow the key's characters and read the
terminal node's value. -/
def TrieNode.getGo (n : TrieNode) : List Char → Option Nat
  | [] => n.value
  | c :: cs =>
    match childGet n.children c with
    | none => none
    | some ch => ch.getGo cs

/-- Embeds `Trie::Get`. -/
def Trie.getOp (t : Trie) (key : List Char) : Option Nat :=
  match t.root with
  | none => none
  | some n => n.getGo key

/-- The loop inside `Trie::Put` for a nonempty key, acting on a cloned node:
at the last character the (possibly fresh) child becomes a value node that
keeps its children; at inner characters an absent child is created empty and
a present child is cloned, and the walk continues into it. -/
def TrieNode.putGo (n : TrieNode) : List Char → Nat → TrieNode
  | [], _ => n
  | [c], v =>
    .mk n.value (childSet n.children c
      (match childGet n.children c with
       | none => .mk (some v) []
       | some ch => .mk (some v) ch.children))
  | c :: cs, v =>
    .mk n.value (childSet n.children c
      ((match childGet n.children c with
        | none => TrieNode.mk none []
        | some ch => ch).putGo cs v))

/-- Embeds `Trie::Put`: an empty key makes the root a value node keeping its
children; otherwise the root (or a fresh empty node when the trie is empty)
is cloned and the put walk runs from it. -/
def Trie.putOp (t : Trie) (key : List Char) (v : Nat) : Trie :=
  match key, t.root with
  | [], none => ⟨some (.mk (some v) [])⟩
  | [], some n => ⟨some (.mk (some v) n.children)⟩
  | _ :: _, none => ⟨some (TrieNode.putGo (.mk none []) key v)⟩
  | _ :: _, some n => ⟨some (n.putGo key v)⟩

/-- Embeds `Trie::remove` (the recursive helper): returns whether a removal took
place and, when it did, the replacement for `cur` (`none` when `cur` itself
is pruned). -/
def TrieNode.removeGo (n : TrieNode) : List Char → Bool × Option TrieNode
  | [] => (false, none)
  | c :: cs =>
    match childGet n.children c with
    | none => (false, none)
    | some child =>
      let res : Bool × Option TrieNode :=
        match cs with
        | [] =>
          (child.value.isSome,
           if child.value.isSome && !child.children.isEmpty then
             some (.mk none child.children)
           else none)
        | _ :: _ => child.removeGo cs
      if res.1 then
        match res.2 with
        | none =>
          if n.children.length > 1 ∨ n.value.isSome then
            (true, some (.mk n.value (childErase n.children c)))
          else
            (true, none)
        | some nc => (true, some (.mk n.value (childSet n.children c nc)))
      else
        (false, none)

/-- Embeds `Trie::Remove`. -/
def Trie.removeOp (t : Trie) (key : List Char) : Trie :=
  match t.root with
  | none => t
  | some rn =>
    match key with
    | [] => if rn.value.isSome then ⟨some (.mk none rn.children)⟩ else t
    | _ :: _ =>
      let res := rn.removeGo key
      if res.1 then ⟨res.2⟩ else t

/-! ## Extendible-hash pages

`src/storage/page/extendible_htable_bucket_page.cpp` and
`src/storage/page/extendible_htable_directory_page.cpp`, instantiated at
`K = V = int` with `IntComparator` (`cmp(a, b) == 0` iff `a = b`) as in the
source's explicit instantiations.  A bucket's `array_`/`size_` pair is
modelled as the list of its live entries.  The directory's per-slot arrays
have a fixed physical capacity in the source; they are modelled as total
functions, of which only indices below `Size()` are ever read. -/

structure BucketPage where
  max_size : Nat
  array : List (Int × Int)
  deriving Repr

/-- Embeds `ExtendibleHTableBucketPage::Init`: sets `max_size_` only; `size_` keeps
the zero it has on a freshly allocated (zero-filled) page. -/
def BucketPage.init (b : BucketPage) (m : Nat) : BucketPage :=
  { b with max_size := m }

def BucketPage.size (b : BucketPage) : Nat := b.array.length

def BucketPage.isFull (b : BucketPage) : Bool := b.array.length == b.max_size

def BucketPage.isEmpty (b : BucketPage) : Bool := b.array.length == 0

/-- Embeds `ExtendibleHTableBucketPage::Lookup`: first entry with an equal key. -/
def BucketPage.lookup (b : BucketPage) (key : Int) : Option Int :=
  (b.array.find? (fun e => e.1 == key)).map (·.2)

/-- Embeds `ExtendibleHTableBucketPage::Insert`: reject when full or when the key
is already present, else append. -/
def BucketPage.insert (b : BucketPage) (key value : Int) : Bool × BucketPage :=
  if b.array.length == b.max_size then (false, b)
  else if b.array.any (fun e => e.1 == key) then (false, b)
  else (true, { b with array := b.array ++ [(key, value)] })

/-- Embeds `ExtendibleHTableBucketPage::Remove`: swap the last entry into the hole
left by the first entry with an equal key. -/
def BucketPage.removeKey (b : BucketPage) (key : Int) : Bool × BucketPage :=
  match b.array.findIdx? (fun e => e.1 == key) with
  | none => (false, b)
  | some i =>
    (true, { b with array := (b.array.set i (b.array.getLastD (0, 0))).dropLast })

/-- Embeds `ExtendibleHTableBucketPage::RemoveAt`: ignore an out-of-range index,
else swap the last entry into the hole. -/
def BucketPage.removeAt (b : BucketPage) (i : Nat) : BucketPage :=
  if i ≥ b.array.length then b
  else { b with array := (b.array.set i (b.array.getLastD (0, 0))).dropLast }

/-- Embeds `ExtendibleHTableBucketPage::EntryAt`. -/
def BucketPage.entryAt (b : BucketPage) (i : Nat) : Int × Int :=
  b.array.getD i (0, 0)

/-- Modelled from the spec: `ExtendibleHTableBucketPage::MergeBucket` is
declared in the bucket page's header, which is not part of the provided
sources.  Per the spec, the merge predicate holds when the current bucket
can absorb the partner's entries without exceeding `max_size`, and in that
case the partner's entries are absorbed into the current bucket. -/
def BucketPage.mergeBucket (b other : BucketPage) : Bool × BucketPage :=
  if b.array.length + other.array.length > b.max_size then (false, b)
  else (true, { b with array := b.array ++ other.array })

structure DirectoryPage where
  max_depth : Nat
  global_depth : Nat
  local_depths : Nat → Nat
  bucket_page_ids : Nat → Int

/-- Embeds `ExtendibleHTableDirectoryPage::Init`: sets `max_depth_` only; every
other field keeps the content of the freshly allocated page. -/
def DirectoryPage.init (d : DirectoryPage) (m : Nat) : DirectoryPage :=
  { d with max_depth := m }

/-- Embeds `ExtendibleHTableDirectoryPage::Size` = `2^global_depth`. -/
def DirectoryPage.size (d : DirectoryPage) : Nat := 2 ^ d.global_depth

/-- Embeds `ExtendibleHTableDirectoryPage::HashToBucketIndex`: the low
`global_depth` bits (`hash & (Size() - 1)`). -/
def DirectoryPage.hashToBucketIndex (d : DirectoryPage) (hash : Nat) : Nat :=
  hash % d.size

def DirectoryPage.getBucketPageId (d : DirectoryPage) (i : Nat) : Int :=
  d.bucket_page_ids i

def DirectoryPage.setBucketPageId (d : DirectoryPage) (i : Nat) (pid : Int) : DirectoryPage :=
  { d with bucket_page_ids := fun j => if j = i then pid else d.bucket_page_ids j }

def DirectoryPage.getLocalDepth (d : DirectoryPage) (i : Nat) : Nat :=
  d.local_depths i

/-- Local depths are stored as bytes; writes wrap modulo 256. -/
def DirectoryPage.setLocalDepth (d : DirectoryPage) (i x : Nat) : DirectoryPage :=
  { d with local_depths := fun j => if j = i then x % 256 else d.local_depths j }

def DirectoryPage.incrLocalDepth (d : DirectoryPage) (i : Nat) : DirectoryPage :=
  d.setLocalDepth i (d.local_depths i + 1)

def DirectoryPage.decrLocalDepth (d : DirectoryPage) (i : Nat) : DirectoryPage :=
  d.setLocalDepth i (d.local_depths i + 255)

/-- Embeds `ExtendibleHTableDirectoryPage::IncrGlobalDepth`: bump the depth and
copy each lower-half slot's local depth and bucket id into the new upper
half. -/
def DirectoryPage.incrGlobalDepth (d : DirectoryPage) : DirectoryPage :=
  let m := 2 ^ d.global_depth
  { d with
    global_depth := d.global_depth + 1,
    local_depths := fun j =>
      if m ≤ j ∧ j < 2 * m then d.local_depths (j - m) else d.local_depths j,
    bucket_page_ids := fun j =>
      if m ≤ j ∧ j < 2 * m then d.bucket_page_ids (j - m) else d.bucket_page_ids j }

/-- Embeds `ExtendibleHTableDirectoryPage::DecrGlobalDepth`: decrement the depth
only; the vacated upper-half slots keep their stale content. -/
def DirectoryPage.decrGlobalDepth (d : DirectoryPage) : DirectoryPage :=
  { d with global_depth := d.global_depth - 1 }

/-- Embeds `ExtendibleHTableDirectoryPage::CanShrink`: no visible slot's local
depth equals the global depth. -/
def DirectoryPage.canShrink (d : DirectoryPage) : Bool :=
  (List.range d.size).all (fun i => d.local_depths i != d.global_depth)

/-- Modelled from the spec: `CanExpand` is declared in the directory page's
header, which is not part of the provided sources.  Per the spec, growth is
legal while `global_depth < max_depth`. -/
def DirectoryPage.canExpand (d : DirectoryPage) : Bool :=
  d.global_depth < d.max_depth

/-- Modelled from the spec: `GetLocalDepthMask` is declared in the
directory page's header, which is not part of the provided sources.  Per
the spec, the split/merge group of a slot consists of the slots sharing its
low `local_depth` bits, so the mask is `local_depth` low one-bits. -/
def DirectoryPage.getLocalDepthMask (d : DirectoryPage) (i : Nat) : Nat :=
  2 ^ d.local_depths i - 1

structure HeaderPage where
  max_depth : Nat
  directory_page_ids : Nat → Int

/-- Modelled from the spec: the header page's implementation file is not
part of the provided sources.  Per the spec, the header holds `max_depth_h`
and an array of `2^max_depth_h` directory page ids, initially `INVALID`. -/
def HeaderPage.init (m : Nat) : HeaderPage :=
  { max_depth := m, directory_page_ids := fun _ => INVALID_PAGE_ID }

/-- Modelled from the spec: hashes are routed to a directory by the top
`max_depth_h` bits of the 32-bit hash. -/
def HeaderPage.hashToDirectoryIndex (h : HeaderPage) (hash : Nat) : Nat :=
  hash >>> (32 - h.max_depth)

def HeaderPage.getDirectoryPageId (h : HeaderPage) (i : Nat) : Int :=
  h.directory_page_ids i

def HeaderPage.setDirectoryPageId (h : HeaderPage) (i : Nat) (pid : Int) : HeaderPage :=
  { h with directory_page_ids := fun j => if j = i then pid else h.directory_page_ids j }

/-! ## Page frames and the buffer pool manager (`src/buffer/buffer_pool_manager.cpp`)

A page's `PAGE_SIZE` byte buffer is abstracted to a `PageData` value:
`zeroed` is the all-zero buffer, `raw n` an opaque client payload, and the
typed constructors are the buffer as seen through the hash table's
`As`/`AsMut` casts. -/

inductive PageData where
  | zeroed
  | raw (n : Nat)
  | header (h : HeaderPage)
  | directory (d : DirectoryPage)
  | bucket (b : BucketPage)

/-- Reading a buffer through `As<ExtendibleHTableHeaderPage>`. -/
def PageData.asHeader : PageData → HeaderPage
  | .header h => h
  | _ => { max_depth := 0, directory_page_ids := fun _ => 0 }

/-- Modelled from the spec: the content a freshly allocated directory page
exposes before its first field is written.  `Init` in the provided sources
sets only `max_depth_`; the numeric fields of a fresh page read zero, and
the spec's insert path requires the unset bucket-page-id slots of a fresh
directory to read `INVALID` (their initialization is outside the provided
sources). -/
def freshDirectory : DirectoryPage :=
  { max_depth := 0, global_depth := 0,
    local_depths := fun _ => 0,
    bucket_page_ids := fun _ => INVALID_PAGE_ID }

/-- Reading a buffer through `As<ExtendibleHTableDirectoryPage>`: a page
that was never written as a directory reads as `freshDirectory`. -/
def PageData.asDirectory : PageData → DirectoryPage
  | .directory d => d
  | _ => freshDirectory

/-- Reading a buffer through `As<ExtendibleHTableBucketPage>`: the all-zero
buffer reads as an empty bucket with `size_ = max_size_ = 0`. -/
def PageData.asBucket : PageData → BucketPage
  | .bucket b => b
  | _ => { max_size := 0, array := [] }

/-- One frame of the pool: the `Page` object's buffer and metadata. -/
structure Frame where
  page_id : Int
  pin_count : Nat
  is_dirty : Bool
  data : PageData

structure BufferPoolManager where
  pool_size : Nat
  frames : Nat → Frame
  free_list : List Nat
  page_table : Int → Option Nat
  replacer : LRUKReplacer
  next_page_id : Int
  /-- The disk manager's content per page id, updated by scheduled writes. -/
  disk : Int → PageData
  /-- The page ids of the scheduled disk reads, in order. -/
  read_log : List Int

/-- The pool as built by `BufferPoolManager(pool_size, ..., replacer_k, ...)`:
all frames hold zeroed buffers with invalid ids and sit on the free list. -/
def BufferPoolManager.new (pool_size replacer_k : Nat) : BufferPoolManager :=
  { pool_size := pool_size,
    frames := fun _ => ⟨INVALID_PAGE_ID, 0, false, .zeroed⟩,
    free_list := List.range pool_size,
    page_table := fun _ => none,
    replacer := LRUKReplacer.new pool_size replacer_k,
    next_page_id := 0,
    disk := fun _ => .zeroed,
    read_log := [] }

def BufferPoolManager.setFrame (bpm : BufferPoolManager) (fid : Nat) (f : Frame) :
    BufferPoolManager :=
  { bpm with frames := fun j => if j = fid then f else bpm.frames j }

/-- The shared frame-selection step of `NewPage` and `FetchPage`: prefer the
front of the free list, else ask the replacer to evict.  Returns the frame
id, whether it came from the free list, and the state. -/
def BufferPoolManager.selectFrame (bpm : BufferPoolManager) :
    Option (Nat × Bool × BufferPoolManager) :=
  match bpm.free_list with
  | fid :: rest => some (fid, true, { bpm with free_list := rest })
  | [] =>
    match bpm.replacer.evict with
    | none => none
    | some (fid, r') => some (fid, false, { bpm with replacer := r' })

/-- Erase `page_table_[pid]`. -/
def BufferPoolManager.eraseMapping (bpm : BufferPoolManager) (pid : Int) : BufferPoolManager :=
  { bpm with page_table := fun p => if p = pid then none else bpm.page_table p }

/-- Install `page_table_[pid] = fid`. -/
def BufferPoolManager.installMapping (bpm : BufferPoolManager) (pid : Int) (fid : Nat) :
    BufferPoolManager :=
  { bpm with page_table := fun p => if p = pid then some fid else bpm.page_table p }

/-- Schedule a page write and await it: the disk content at `pid` becomes `d`. -/
def BufferPoolManager.diskWrite (bpm : BufferPoolManager) (pid : Int) (d : PageData) :
    BufferPoolManager :=
  { bpm with disk := fun p => if p = pid then d else bpm.disk p }

/-- Embeds `BufferPoolManager::NewPage`: pick a frame (free list first, else
eviction), drop the victim's mapping, write the victim back when dirty,
allocate the next page id, set `pin_count = 1` and `dirty = false` (the
buffer itself is left untouched), install the mapping, record an access and
pin the frame in the replacer. -/
def BufferPoolManager.newPage (bpm : BufferPoolManager) :
    Option (BufferPoolManager × Int) :=
  match bpm.selectFrame with
  | none => none
  | some (fid, is_free, s1) =>
    let frame := s1.frames fid
    let s2 := if is_free then s1 else s1.eraseMapping frame.page_id
    let s3 := if frame.is_dirty then s2.diskWrite frame.page_id frame.data else s2
    let pid := s3.next_page_id
    let s4 := s3.setFrame fid { frame with is_dirty := false, pin_count := 1, page_id := pid }
    let s5 := { s4 with next_page_id := pid + 1 }
    let s6 := s5.installMapping pid fid
    match (s6.replacer.recordAccess fid).setEvictable fid false with
    | none => none
    | some r' => some ({ s6 with replacer := r' }, pid)

/-- Embeds `BufferPoolManager::FetchPage`: on a page-table hit just pin the frame
and record an access; on a miss reuse the `NewPage` victim path, write the
victim back when dirty, schedule a read of the page into the frame, set the
metadata and install the mapping. -/
def BufferPoolManager.fetchPage (bpm : BufferPoolManager) (pid : Int) :
    Option (BufferPoolManager × Nat) :=
  match bpm.page_table pid with
  | some fid =>
    let frame := bpm.frames fid
    let s1 := bpm.setFrame fid { frame with pin_count := frame.pin_count + 1 }
    match (s1.replacer.recordAccess fid).setEvictable fid false with
    | none => none
    | some r' => some ({ s1 with replacer := r' }, fid)
  | none =>
    match bpm.selectFrame with
    | none => none
    | some (fid, is_free, s1) =>
      let frame := s1.frames fid
      let s2 := if is_free then s1 else s1.eraseMapping frame.page_id
      let s3 := if frame.is_dirty then s2.diskWrite frame.page_id frame.data else s2
      let s4 := { s3 with read_log := s3.read_log ++ [pid] }
      let s5 := s4.setFrame fid
        { page_id := pid, pin_count := 1, is_dirty := false, data := s4.disk pid }
      let s6 := s5.installMapping pid fid
      match (s6.replacer.recordAccess fid).setEvictable fid false with
      | none => none
      | some r' => some ({ s6 with replacer := r' }, fid)

/-- Embeds `BufferPoolManager::UnpinPage`: `false` when unmapped or already
unpinned; otherwise decrement the pin count, OR in the dirty flag, and mark
the frame evictable when the pin count reaches zero. -/
def BufferPoolManager.unpinPage (bpm : BufferPoolManager) (pid : Int) (is_dirty : Bool) :
    Option (Bool × BufferPoolManager) :=
  match bpm.page_table pid with
  | none => some (false, bpm)
  | some fid =>
    let frame := bpm.frames fid
    if frame.pin_count == 0 then some (false, bpm)
    else
      let s1 := bpm.setFrame fid
        { frame with pin_count := frame.pin_count - 1,
                     is_dirty := frame.is_dirty || is_dirty }
      if frame.pin_count - 1 == 0 then
        match s1.replacer.setEvictable fid true with
        | none => none
        | some r' => some (true, { s1 with replacer := r' })
      else some (true, s1)

/-- Embeds `BufferPoolManager::FlushPage`: `false` when unmapped; otherwise
schedule a write of the frame's current buffer to the frame's page id and
await it.  No frame field is touched. -/
def BufferPoolManager.flushPage (bpm : BufferPoolManager) (pid : Int) :
    Bool × BufferPoolManager :=
  match bpm.page_table pid with
  | none => (false, bpm)
  | some fid =>
    let frame := bpm.frames fid
    (true, bpm.diskWrite frame.page_id frame.data)

/-- Embeds `BufferPoolManager::DeletePage`: `true` when unmapped, `false` when
pinned; otherwise clear the frame's metadata, reset its buffer, return the
frame to the free list, remove it from the replacer and deallocate the page
id.  The page-table entry is not erased. -/
def BufferPoolManager.deletePage (bpm : BufferPoolManager) (pid : Int) :
    Option (Bool × BufferPoolManager) :=
  match bpm.page_table pid with
  | none => some (true, bpm)
  | some fid =>
    let frame := bpm.frames fid
    if frame.pin_count > 0 then some (false, bpm)
    else
      let s1 := bpm.setFrame fid ⟨INVALID_PAGE_ID, 0, false, .zeroed⟩
      let s2 := { s1 with free_list := s1.free_list ++ [fid] }
      match s2.replacer.remove fid with
      | none => none
      | some r' => some (true, { s2 with replacer := r' })

/-- A client writing the page's buffer through a fetched `Page` pointer
(`GetDataMut` in the source); a no-op when the page is unmapped.  Used both
to drive scenarios and for the hash table's `AsMut` writes. -/
def BufferPoolManager.writeData (bpm : BufferPoolManager) (pid : Int) (d : PageData) :
    BufferPoolManager :=
  match bpm.page_table pid with
  | none => bpm
  | some fid =>
    bpm.setFrame fid { bpm.frames fid with data := d }

/-- Reading the page's buffer through a fetched `Page` pointer; `zeroed`
when the page is unmapped (never the case at the model's call sites). -/
def BufferPoolManager.readData (bpm : BufferPoolManager) (pid : Int) : PageData :=
  match bpm.page_table pid with
  | none => .zeroed
  | some fid => (bpm.frames fid).data

/-! ## Disk extendible hash table (`src/container/disk/hash/disk_extendible_hash_table.cpp`)

Instantiated at `K = V = int` with `IntComparator`; the hash function is a
construction parameter and its 32-bit result is modelled by reducing
modulo `2^32`.  Page guards are `FetchPage`/`NewPage` calls paired with the
`UnpinPage` their `Drop` performs; a write guard whose page was accessed
through `AsMut` unpins with `is_dirty = true`, a read guard with `false`.
In-place writes through an `AsMut` pointer become explicit `writeData`
calls on the frame the guard pins. -/

/-- The index sequence of `for (idx = start; idx < bound; idx += step)`. -/
def loopIdx (start step bound : Nat) : List Nat :=
  if step = 0 then []
  else (List.range ((bound - start + step - 1) / step)).map (fun j => start + j * step)

structure DiskExtendibleHashTable where
  bpm : BufferPoolManager
  header_page_id : Int
  header_max_depth : Nat
  directory_max_depth : Nat
  bucket_max_size : Nat
  hash_fn : Int → Nat

/-- Embeds `DiskExtendibleHashTable::Hash`: the hash function's result as `uint32_t`. -/
def DiskExtendibleHashTable.hashOf (t : DiskExtendibleHashTable) (k : Int) : Nat :=
  t.hash_fn k % 2 ^ 32

/-- The constructor: allocate the header page, `Init` it with
`header_max_depth`, and drop the write guard. -/
def DiskExtendibleHashTable.new (bpm : BufferPoolManager)
    (header_max_depth directory_max_depth bucket_max_size : Nat)
    (hash_fn : Int → Nat) : Option DiskExtendibleHashTable := do
  let (s1, hpid) ← bpm.newPage
  let s2 := s1.writeData hpid (.header (HeaderPage.init header_max_depth))
  let (_, s3) ← s2.unpinPage hpid true
  pure { bpm := s3, header_page_id := hpid, header_max_depth := header_max_depth,
         directory_max_depth := directory_max_depth, bucket_max_size := bucket_max_size,
         hash_fn := hash_fn }

/-- Embeds `DiskExtendibleHashTable::GetValue`: header (shared) → directory
(shared) → bucket (shared) → linear scan.  Returns the success flag and the
contents of the caller's (initially empty) result vector. -/
def DiskExtendibleHashTable.getValue (t : DiskExtendibleHashTable) (key : Int) :
    Option (Bool × List Int × DiskExtendibleHashTable) := do
  let hash := t.hashOf key
  let (s1, _) ← t.bpm.fetchPage t.header_page_id
  let header := (s1.readData t.header_page_id).asHeader
  let dir_idx := header.hashToDirectoryIndex hash
  let dir_pid := header.getDirectoryPageId dir_idx
  if dir_pid = INVALID_PAGE_ID then
    let (_, s2) ← s1.unpinPage t.header_page_id false
    pure (false, [], { t with bpm := s2 })
  else
    let (_, s2) ← s1.unpinPage t.header_page_id false
    let (s3, _) ← s2.fetchPage dir_pid
    let dir := (s3.readData dir_pid).asDirectory
    let bucket_idx := dir.hashToBucketIndex hash
    let bucket_pid := dir.getBucketPageId bucket_idx
    if bucket_pid = INVALID_PAGE_ID then
      let (_, s4) ← s3.unpinPage dir_pid false
      pure (false, [], { t with bpm := s4 })
    else
      let (_, s4) ← s3.unpinPage dir_pid false
      let (s5, _) ← s4.fetchPage bucket_pid
      let bucket := (s5.readData bucket_pid).asBucket
      match bucket.lookup key with
      | none =>
        let (_, s6) ← s5.unpinPage bucket_pid false
        pure (false, [], { t with bpm := s6 })
      | some v =>
        let (_, s6) ← s5.unpinPage bucket_pid false
        pure (true, [v], { t with bpm := s6 })

/-- The downward redistribution loop of the bucket split (step 4 of
`InsertToDirectory`): entries whose hash has the split bit set move to the
new bucket. -/
def splitScan (hF : Int → Nat) (mask : Nat) :
    Nat → BucketPage → BucketPage → BucketPage × BucketPage
  | 0, b, nb => (b, nb)
  | i + 1, b, nb =>
    let e := b.entryAt i
    if (hF e.1) &&& mask ≠ 0 then
      splitScan hF mask i (b.removeAt i) (nb.insert e.1 e.2).2
    else
      splitScan hF mask i b nb

/-- Embeds `DiskExtendibleHashTable::InsertToDirectory`.  The recursion is bounded
by explicit fuel; every recursive call raises the local depth of the target
slot, so `directory_max_depth + 2` rounds suffice and the `0` case is never
reached from `insertOp`.  `BUSTUB_ASSERT` failures abort the process and
are modelled as `failure`. -/
def insertToDirectory (hF : Int → Nat) (bms : Nat) :
    Nat → BufferPoolManager → Int → Nat → Int → Int →
    Option (Bool × BufferPoolManager)
  | 0, _, _, _, _, _ => none
  | fuel + 1, bpm, dir_pid, hash, key, value => do
    let dir := (bpm.readData dir_pid).asDirectory
    let bucket_idx := dir.hashToBucketIndex hash
    let bucket_pid0 := dir.getBucketPageId bucket_idx
    let (s_a, bucket_pid) ←
      if bucket_pid0 = INVALID_PAGE_ID then do
        if ¬ (dir.size = 1 ∧ bucket_idx = 0) then failure
        let (s1, bucket_pid) ← bpm.newPage
        let s2 := s1.writeData dir_pid (.directory (dir.setBucketPageId bucket_idx bucket_pid))
        let s3 := s2.writeData bucket_pid
          (.bucket (((s2.readData bucket_pid).asBucket).init bms))
        pure (s3, bucket_pid)
      else do
        let (s1, _) ← bpm.fetchPage bucket_pid0
        pure (s1, bucket_pid0)
    let bucket := (s_a.readData bucket_pid).asBucket
    if ¬ bucket.isFull then
      let (ok, b') := bucket.insert key value
      let s_b := s_a.writeData bucket_pid (.bucket b')
      let (_, s_c) ← s_b.unpinPage bucket_pid true
      pure (ok, s_c)
    else do
      let dir1 := (s_a.readData dir_pid).asDirectory
      if dir1.getLocalDepth bucket_idx = dir1.global_depth ∧ ¬ dir1.canExpand then do
        let (_, s_c) ← s_a.unpinPage bucket_pid true
        pure (false, s_c)
      else do
        let s_d :=
          if dir1.getLocalDepth bucket_idx = dir1.global_depth then
            s_a.writeData dir_pid (.directory dir1.incrGlobalDepth)
          else s_a
        let dir2 := (s_d.readData dir_pid).asDirectory
        let (s_e, new_bucket_pid) ← s_d.newPage
        let s_f := s_e.writeData new_bucket_pid
          (.bucket (((s_e.readData new_bucket_pid).asBucket).init bms))
        let new_mask := 2 ^ dir2.getLocalDepth bucket_idx
        let bucket1 := (s_f.readData bucket_pid).asBucket
        let new_bucket1 := (s_f.readData new_bucket_pid).asBucket
        let (b2, nb2) := splitScan hF new_mask bucket1.size bucket1 new_bucket1
        let s_g := (s_f.writeData bucket_pid (.bucket b2)).writeData new_bucket_pid (.bucket nb2)
        let dir3 := (s_g.readData dir_pid).asDirectory
        let dir_size := dir3.size
        let start := hash &&& dir3.getLocalDepthMask bucket_idx
        let dir4 := (loopIdx start new_mask dir_size).foldl
          (fun dd idx =>
            let dd1 := dd.incrLocalDepth idx
            if idx &&& new_mask ≠ 0 then dd1.setBucketPageId idx new_bucket_pid else dd1)
          dir3
        let s_h := s_g.writeData dir_pid (.directory dir4)
        let (_, s_i) ← s_h.unpinPage bucket_pid true
        let (_, s_j) ← s_i.unpinPage new_bucket_pid true
        insertToDirectory hF bms fuel s_j dir_pid hash key value

/-- Embeds `DiskExtendibleHashTable::Insert`: header (exclusive), creating and
initializing the directory when the slot is `INVALID`, then the
directory-local insert routine. -/
def DiskExtendibleHashTable.insertOp (t : DiskExtendibleHashTable) (key value : Int) :
    Option (Bool × DiskExtendibleHashTable) := do
  let hF := fun k => t.hash_fn k % 2 ^ 32
  let hash := hF key
  let (s1, _) ← t.bpm.fetchPage t.header_page_id
  let header := (s1.readData t.header_page_id).asHeader
  let dir_idx := header.hashToDirectoryIndex hash
  let dir_pid0 := header.getDirectoryPageId dir_idx
  let (s_a, dir_pid) ←
    if dir_pid0 = INVALID_PAGE_ID then do
      let (s2, dir_pid) ← s1.newPage
      let s3 := s2.writeData t.header_page_id
        (.header (header.setDirectoryPageId dir_idx dir_pid))
      let (_, s4) ← s3.unpinPage t.header_page_id true
      let s5 := s4.writeData dir_pid
        (.directory (((s4.readData dir_pid).asDirectory).init t.directory_max_depth))
      pure (s5, dir_pid)
    else do
      let (s2, _) ← s1.fetchPage dir_pid0
      let (_, s3) ← s2.unpinPage t.header_page_id true
      pure (s3, dir_pid0)
  let (ok, s_b) ←
    insertToDirectory hF t.bucket_max_size
      (t.directory_max_depth + 2) s_a dir_pid hash key value
  let (_, s_c) ← s_b.unpinPage dir_pid true
  pure (ok, { t with bpm := s_c })

/-- The iterative merge loop of `Remove` (step 5).  The fuel bounds the
loop; each successful merge strictly decreases the target slot's local
depth (a byte), so 257 rounds always suffice. -/
def mergeLoop (bucket_pid : Int) (dir_pid : Int) (bucket_idx : Nat) (hash : Nat) :
    Nat → BufferPoolManager → Option BufferPoolManager
  | 0, _ => none
  | fuel + 1, s => do
    let dir := (s.readData dir_pid).asDirectory
    let bucket_depth := dir.getLocalDepth bucket_idx
    if bucket_depth = 0 then pure s
    else do
      let merge_mask := 2 ^ (bucket_depth - 1)
      let merge_bucket_idx := bucket_idx ^^^ merge_mask
      let merge_bucket_pid := dir.getBucketPageId merge_bucket_idx
      let (s1, _) ← s.fetchPage merge_bucket_pid
      let merge_bucket := (s1.readData merge_bucket_pid).asBucket
      let bucket := (s1.readData bucket_pid).asBucket
      let (ok, merged) := bucket.mergeBucket merge_bucket
      if ¬ ok then do
        let (_, s2) ← s1.unpinPage merge_bucket_pid false
        pure s2
      else do
        let s2 := s1.writeData bucket_pid (.bucket merged)
        let (_, s3) ← s2.unpinPage merge_bucket_pid false
        let (del_ok, s4) ← s3.deletePage merge_bucket_pid
        if ¬ del_ok then failure
        else do
          let dir1 := (s4.readData dir_pid).asDirectory
          let dir_size := dir1.size
          let start := hash &&& dir1.getLocalDepthMask bucket_idx
          let dir2 := (loopIdx start merge_mask dir_size).foldl
            (fun dd idx => (dd.decrLocalDepth idx).setBucketPageId idx bucket_pid) dir1
          let s5 := s4.writeData dir_pid (.directory dir2)
          mergeLoop bucket_pid dir_pid bucket_idx hash fuel s5

/-- The shrink loop of `Remove` (step 6): `DecrGlobalDepth` while
`CanShrink`; its `BUSTUB_ASSERT(global_depth_ > 0)` is modelled as `none`.
The global depth strictly decreases, so fuel `global_depth + 2` suffices. -/
def shrinkLoop : Nat → DirectoryPage → Option DirectoryPage
  | 0, _ => none
  | fuel + 1, d =>
    if d.canShrink then
      if d.global_depth = 0 then none
      else shrinkLoop fuel d.decrGlobalDepth
    else some d

/-- Embeds `DiskExtendibleHashTable::Remove`: header (shared) → directory
(exclusive) → bucket (exclusive), swap-with-last removal, then the
iterative merge and the directory shrink. -/
def DiskExtendibleHashTable.removeOp (t : DiskExtendibleHashTable) (key : Int) :
    Option (Bool × DiskExtendibleHashTable) := do
  let hash := t.hashOf key
  let (s1, _) ← t.bpm.fetchPage t.header_page_id
  let header := (s1.readData t.header_page_id).asHeader
  let dir_idx := header.hashToDirectoryIndex hash
  let dir_pid := header.getDirectoryPageId dir_idx
  if dir_pid = INVALID_PAGE_ID then
    let (_, s2) ← s1.unpinPage t.header_page_id false
    pure (false, { t with bpm := s2 })
  else do
    let (_, s2) ← s1.unpinPage t.header_page_id false
    let (s3, _) ← s2.fetchPage dir_pid
    let dir := (s3.readData dir_pid).asDirectory
    let bucket_idx := dir.hashToBucketIndex hash
    let bucket_pid := dir.getBucketPageId bucket_idx
    if bucket_pid = INVALID_PAGE_ID then do
      let (_, s4) ← s3.unpinPage dir_pid true
      pure (false, { t with bpm := s4 })
    else do
      let (s4, _) ← s3.fetchPage bucket_pid
      let bucket := (s4.readData bucket_pid).asBucket
      let (removed, b1) := bucket.removeKey key
      let s5 := s4.writeData bucket_pid (.bucket b1)
      if ¬ removed then do
        let (_, s6) ← s5.unpinPage bucket_pid true
        let (_, s7) ← s6.unpinPage dir_pid true
        pure (false, { t with bpm := s7 })
      else do
        let s6 ← mergeLoop bucket_pid dir_pid bucket_idx hash 257 s5
        let dir1 := (s6.readData dir_pid).asDirectory
        let dir2 ← shrinkLoop (dir1.global_depth + 2) dir1
        let s7 := s6.writeData dir_pid (.directory dir2)
        let (_, s8) ← s7.unpinPage bucket_pid true
        let (_, s9) ← s8.unpinPage dir_pid true
        pure (true, { t with bpm := s9 })

/-! ## Spec-side predicates

Definitions in this section follow the specification's wording; the
theorems below compare the embedded code against them. -/

/-- The spec's backward K-distance of a node at time `ts`: `none` stands
for +infinity (fewer than `k` recorded accesses), otherwise
`ts - history.front()`. -/
def backwardKDistance (k ts : Nat) (n : LRUKNode) : Option Nat :=
  if n.history.length < k then none else some (ts - n.history.headD 0)

/-- The spec's victim preference: `a` is evicted in preference to `b` when
`a`'s backward K-distance is larger, with ties among infinite distances
broken by the smaller most-recent timestamp and ties among finite
distances by the smaller K-th-from-last (earliest preserved) timestamp. -/
def specPrefer (k ts : Nat) (a b : LRUKNode) : Prop :=
  match backwardKDistance k ts a, backwardKDistance k ts b with
  | none, none => a.history.getLastD 0 < b.history.getLastD 0
  | none, some _ => True
  | some da, some db => db < da ∨ (da = db ∧ a.history.headD 0 < b.history.headD 0)
  | some _, none => False

/-- The conclusion of the LRU-K eviction claim for a replacer state: with no
evictable node `Evict` fails, and with one it removes and returns a most
preferred evictable node. -/
def evictSpecHolds (r : LRUKReplacer) : Prop :=
  ((∀ n ∈ r.node_store, n.is_evictable = false) → r.evict = none) ∧
  (∀ n ∈ r.node_store, n.is_evictable = true →
    ∃ v r', r.evict = some (v.fid, r') ∧
      v ∈ r.node_store ∧ v.is_evictable = true ∧
      r'.node_store = r.node_store.filter (fun m => m.fid != v.fid) ∧
      r'.curr_size = r.curr_size - 1 ∧
      ∀ u ∈ r.node_store, u.is_evictable = true → u ≠ v →
        specPrefer r.k r.current_timestamp v u)

/-- The spec's directory invariant: slots whose indices agree in the low
`local_depth[i]` bits share the bucket page id and the local depth. -/
def dirInvariantHolds (d : DirectoryPage) : Prop :=
  ∀ i j, i < d.size → j < d.size →
    i % 2 ^ d.local_depths i = j % 2 ^ d.local_depths i →
    d.bucket_page_ids i = d.bucket_page_ids j ∧
    d.local_depths i = d.local_depths j

/-- The conclusion of the trie claim for given keys and values. -/
def trieSpecHolds (t : Trie) (k k1 k2 : List Char) (v v1 v2 : Nat) : Prop :=
  (t.putOp k v).getOp k = some v ∧
  ((t.putOp k v).removeOp k).getOp k = none ∧
  ((t.putOp k1 v1).putOp k2 v2).getOp k1 = some v1

/-- The conclusion of the (amended) `NewPage` claim: a successful call
returns the next monotonically increasing page id, installs the mapping,
pins the frame with a cleared dirty flag, records a replacer access and
marks the frame non-evictable, and leaves the frame's buffer unchanged. -/
def newPageSpecHolds (bpm s' : BufferPoolManager) (pid : Int) : Prop :=
  ∃ fid,
    pid = bpm.next_page_id ∧
    s'.next_page_id = bpm.next_page_id + 1 ∧
    s'.page_table pid = some fid ∧
    (s'.frames fid).page_id = pid ∧
    (s'.frames fid).pin_count = 1 ∧
    (s'.frames fid).is_dirty = false ∧
    s'.replacer.current_timestamp = bpm.replacer.current_timestamp + 1 ∧
    (∃ m, s'.replacer.findNode fid = some m ∧ m.is_evictable = false) ∧
    (s'.frames fid).data = (bpm.frames fid).data

/-- The conclusion of the delete-then-fetch claim: after a successful
`DeletePage` the page-table entry survives, the frame sits on the free
list, and a subsequent `FetchPage` hits the page table and returns the
freed frame without scheduling a disk read. -/
def deleteFetchSpecHolds (bpm : BufferPoolManager) (pid : Int) (fid : Nat) : Prop :=
  ∃ s', bpm.deletePage pid = some (true, s') ∧
    s'.page_table pid = some fid ∧
    fid ∈ s'.free_list ∧
    ∃ s'', s'.fetchPage pid = some (s'', fid) ∧
      s''.read_log = bpm.read_log ∧
      s''.disk = bpm.disk ∧
      fid ∈ s''.free_list ∧
      (s''.frames fid).pin_count = 1 ∧
      (s''.frames fid).data = (s'.frames fid).data

/-- The representation invariant `std::map` guarantees for a node's
children: distinct keys at every level. -/
inductive TrieNode.WF : TrieNode → Prop where
  | mk (v : Option Nat) (cs : List (Char × TrieNode)) :
      (cs.map Prod.fst).Nodup → (∀ p ∈ cs, TrieNode.WF p.2) →
      TrieNode.WF (.mk v cs)

/-- A trie handle whose root, when present, is well-formed. -/
def Trie.WF (t : Trie) : Prop := ∀ n, t.root = some n → n.WF

/-! ## Concrete scenarios

Executable states used by the counterexample and failing-input theorems. -/

/-- An identity-style hash for small nonnegative integer keys. -/
def idHash : Int → Nat := fun k => k.toNat

/-- A hash table over a fresh 10-frame pool (`K = 2`) with
`header_max_depth = 0`, `directory_max_depth = 1`, `bucket_max_size = 1`. -/
def scenarioTable : Option DiskExtendibleHashTable :=
  DiskExtendibleHashTable.new (BufferPoolManager.new 10 2) 0 1 1 idHash

/-- The scenario table after `Insert(0, 100)` and `Insert(1, 101)` (the
second insert splits the single full bucket and grows the directory). -/
def scenarioAfterInserts : Option DiskExtendibleHashTable := do
  let t0 ← scenarioTable
  let (ok1, t1) ← t0.insertOp 0 100
  if ¬ ok1 then failure
  let (ok2, t2) ← t1.insertOp 1 101
  if ¬ ok2 then failure
  pure t2

/-- The scenario table after the further `Remove(1)` (which merges the
emptied bucket with its partner). -/
def scenarioAfterRemove : Option DiskExtendibleHashTable := do
  let t2 ← scenarioAfterInserts
  let (ok, t3) ← t2.removeOp 1
  if ¬ ok then failure
  pure t3

/-- The observable result of `GetValue(key)` on a scenario state: the
success flag and the contents of the result vector. -/
def scenarioGetValue (s : Option DiskExtendibleHashTable) (key : Int) :
    Option (Bool × List Int) := do
  let t ← s
  let (ok, vs, _) ← t.getValue key
  pure (ok, vs)

/-- The directory page (page id 1) of a scenario state. -/
def scenarioDirectory (s : Option DiskExtendibleHashTable) : DirectoryPage :=
  match s with
  | none => freshDirectory
  | some t => (t.bpm.readData 1).asDirectory

/-- The directory state reached after the merge of `scenarioAfterRemove`. -/
def mergedDir : DirectoryPage := scenarioDirectory scenarioAfterRemove

/-- A table with `directory_max_depth = 1` and `bucket_max_size = 1`
holding only `(0, 100)`, so that key 0's bucket is full. -/
def dupScenarioTable : Option DiskExtendibleHashTable := do
  let t0 ← DiskExtendibleHashTable.new (BufferPoolManager.new 10 2) 0 1 1 idHash
  let (ok, t1) ← t0.insertOp 0 100
  if ¬ ok then failure
  pure t1

/-- The result of the duplicate `Insert(0, 999)` on `dupScenarioTable`:
the returned flag and the directory's global depth afterwards. -/
def dupInsertResult : Option (Bool × Nat) := do
  let t ← dupScenarioTable
  let (ok, t') ← t.insertOp 0 999
  pure (ok, ((t'.bpm.readData 1).asDirectory).global_depth)

/-- A one-frame pool holding page 0 with buffer `raw 7`, unpinned dirty;
used by the flush and new-page scenarios. -/
def flushScenarioPool : BufferPoolManager :=
  (do
    let (s1, p0) ← (BufferPoolManager.new 1 2).newPage
    let s2 := s1.writeData p0 (.raw 7)
    let (_, s3) ← s2.unpinPage p0 true
    pure s3).getD (BufferPoolManager.new 0 0)

/-- A one-frame pool holding page 0 with buffer `raw 65`, unpinned clean,
so that the next `NewPage` reuses the frame through eviction without a
write-back. -/
def newPageScenarioPool : BufferPoolManager :=
  (do
    let (s1, p0) ← (BufferPoolManager.new 1 2).newPage
    let s2 := s1.writeData p0 (.raw 65)
    let (_, s3) ← s2.unpinPage p0 false
    pure s3).getD (BufferPoolManager.new 0 0)

/-- The state after `NewPage` on `newPageScenarioPool` (the eviction-reuse
path). -/
def newPageScenarioAfter : BufferPoolManager :=
  (newPageScenarioPool.newPage.map Prod.fst).getD (BufferPoolManager.new 0 0)

/-- A three-frame pool holding page 0, unpinned and clean; used by the
delete-then-fetch scenario. -/
def deleteScenarioPool : BufferPoolManager :=
  (do
    let (s1, p0) ← (BufferPoolManager.new 3 2).newPage
    let (_, s2) ← s1.unpinPage p0 false
    pure s2).getD (BufferPoolManager.new 0 0)

/-- The entry list of the surviving bucket (page 3) after the scenario's
merge. -/
def mergeSurvivorBucket : List (Int × Int) :=
  match scenarioAfterRemove with
  | none => []
  | some t => (t.bpm.readData 3).asBucket.array

/-- The page id held by frame 2 (the partner bucket's frame) after the
scenario's merge; `INVALID_PAGE_ID` once the page was deallocated. -/
def mergePartnerFramePid : Int :=
  match scenarioAfterRemove with
  | none => 0
  | some t => (t.bpm.frames 2).page_id

/-- The directory's global depth before the duplicate insert. -/
def dupBeforeDepth : Option Nat :=
  dupScenarioTable.map (fun t => ((t.bpm.readData 1).asDirectory).global_depth)

/-- A table with `bucket_max_size = 2` holding only `(0, 100)`: key `0` sits
in a bucket that is not full. -/
def dupSpecTable : DiskExtendibleHashTable :=
  (do
    let t0 ← DiskExtendibleHashTable.new (BufferPoolManager.new 10 2) 0 1 2 idHash
    let (_, t1) ← t0.insertOp 0 100
    pure t1).getD ⟨BufferPoolManager.new 10 2, 0, 0, 1, 2, idHash⟩

/-- A concrete replacer scenario: `K = 2`, frames 1 and 2 accessed twice
alternately, then frame 3 accessed once; all three evictable. -/
def evictScenarioReplacer : LRUKReplacer :=
  (do
    let r0 := (((((LRUKReplacer.new 10 2).recordAccess 1).recordAccess 2).recordAccess
      1).recordAccess 2).recordAccess 3
    let a ← r0.setEvictable 1 true
    let b ← a.setEvictable 2 true
    b.setEvictable 3 true).getD (LRUKReplacer.new 0 0)

/-! ## Helper lemmas -/

theorem find?_map_update (l : List LRUKNode) (fid : Nat) (g : LRUKNode → LRUKNode)
    (hg : ∀ n, (g n).fid = n.fid) :
    (l.map (fun n => if n.fid == fid then g n else n)).find? (fun n => n.fid == fid)
      = (l.find? (fun n => n.fid == fid)).map g := by
  induction l with
  | nil => rfl
  | cons a t ih =>
    simp only [List.map_cons]
    by_cases h : a.fid = fid
    · rw [if_pos (by simp [h]), List.find?_cons_of_pos _ (by simp [hg, h]),
        List.find?_cons_of_pos _ (by simp [h])]
      rfl
    · rw [if_neg (by simp [h]), List.find?_cons_of_neg _ (by simp [h]),
        List.find?_cons_of_neg _ (by simp [h])]
      exact ih

theorem findNode_recordAccess (r : LRUKReplacer) (fid : Nat) :
    ∃ n, (r.recordAccess fid).findNode fid = some n := by
  unfold LRUKReplacer.recordAccess
  cases hf : r.findNode fid with
  | some n =>
    dsimp only
    refine ⟨n.access r.k r.current_timestamp, ?_⟩
    show List.find? _ _ = _
    rw [find?_map_update r.node_store fid
      (fun m => m.access r.k r.current_timestamp) (fun _ => rfl)]
    have hf' : r.node_store.find? (fun m => m.fid == fid) = some n := hf
    rw [hf']
    rfl
  | none =>
    dsimp only
    refine ⟨LRUKNode.access r.k ⟨fid, [], false⟩ r.current_timestamp, ?_⟩
    show List.find? _ _ = _
    have hf' : r.node_store.find? (fun m => m.fid == fid) = none := hf
    rw [List.find?_append, hf']
    simp [LRUKNode.access]

theorem setEvictable_of_found (r : LRUKReplacer) (fid : Nat) (n : LRUKNode)
    (h : r.findNode fid = some n) (b : Bool) :
    ∃ r', r.setEvictable fid b = some r' ∧
      r'.findNode fid = some (n.setFlag b).2 ∧
      r'.current_timestamp = r.current_timestamp := by
  unfold LRUKReplacer.setEvictable
  rw [h]
  refine ⟨_, rfl, ?_, rfl⟩
  unfold LRUKReplacer.findNode at h ⊢
  simp only []
  rw [find?_map_update r.node_store fid (fun m => (m.setFlag b).2) (fun _ => rfl), h]
  rfl

/-- After `RecordAccess(fid)` followed by `SetEvictable(fid, b)`, both
succeed, the node exists with flag `b`, and the timestamp advanced. -/
theorem recordAccess_setEvictable_spec (r : LRUKReplacer) (fid : Nat) (b : Bool) :
    ∃ r' m, (r.recordAccess fid).setEvictable fid b = some r' ∧
      r'.findNode fid = some m ∧ m.is_evictable = b ∧
      r'.current_timestamp = r.current_timestamp + 1 := by
  obtain ⟨n, hn⟩ := findNode_recordAccess r fid
  obtain ⟨r', hr', hfind, hts⟩ := setEvictable_of_found (r.recordAccess fid) fid n hn b
  exact ⟨r', (n.setFlag b).2, hr', hfind, rfl, by rw [hts]; rfl⟩

theorem evict_preserves_timestamp (r : LRUKReplacer) (f : Nat) (r' : LRUKReplacer)
    (h : r.evict = some (f, r')) : r'.current_timestamp = r.current_timestamp := by
  unfold LRUKReplacer.evict at h
  split at h
  · exact absurd h (by simp)
  · injection h with hpair
    injection hpair with h1 h2
    rw [← h2]

theorem setEvictable_false_after_record (r : LRUKReplacer) (r' : LRUKReplacer) (fid : Nat)
    (h : (r.recordAccess fid).setEvictable fid false = some r') :
    r'.current_timestamp = r.current_timestamp + 1 ∧
    ∃ m, r'.findNode fid = some m ∧ m.is_evictable = false := by
  obtain ⟨n0, hn0⟩ := findNode_recordAccess r fid
  obtain ⟨r2, hr2, hfind, hts⟩ := setEvictable_of_found _ fid n0 hn0 false
  have he : r2 = r' := Option.some.inj (hr2.symm.trans h)
  subst he
  exact ⟨by rw [hts]; rfl, ⟨_, hfind, rfl⟩⟩

/-- C3 (amended): every successful `NewPage` allocates the next page id,
installs the mapping, sets `pin_count = 1` and `dirty = false`, records a
replacer access and pins the frame non-evictable; the frame's buffer is
left untouched (it is not cleared, contrary to the claim as stated). -/
theorem bpm_newPage_spec_C3 (bpm s' : BufferPoolManager) (pid : Int)
    (h : bpm.newPage = some (s', pid)) : newPageSpecHolds bpm s' pid := by
  unfold BufferPoolManager.newPage BufferPoolManager.selectFrame at h
  cases hfl : bpm.free_list with
  | cons f0 rest =>
    rw [hfl] at h
    dsimp only at h
    rw [if_pos rfl] at h
    cases hd : (bpm.frames f0).is_dirty with
    | true =>
      rw [hd, if_pos rfl] at h
      split at h
      · exact absurd h (by simp)
      · rename_i r'' heq
        obtain ⟨hts2, m, hm, hmev⟩ := setEvictable_false_after_record _ r'' f0 heq
        injection h with hpair
        injection hpair with h1 h2
        subst h1; subst h2
        refine ⟨f0, rfl, rfl, ?_, ?_, ?_, ?_, ?_, ⟨m, hm, hmev⟩, ?_⟩ <;>
          first
            | (rw [hts2]; rfl)
            | simp [BufferPoolManager.installMapping, BufferPoolManager.setFrame]
    | false =>
      rw [hd, if_neg Bool.false_ne_true] at h
      split at h
      · exact absurd h (by simp)
      · rename_i r'' heq
        obtain ⟨hts2, m, hm, hmev⟩ := setEvictable_false_after_record _ r'' f0 heq
        injection h with hpair
        injection hpair with h1 h2
        subst h1; subst h2
        refine ⟨f0, rfl, rfl, ?_, ?_, ?_, ?_, ?_, ⟨m, hm, hmev⟩, ?_⟩ <;>
          first
            | (rw [hts2]; rfl)
            | simp [BufferPoolManager.installMapping, BufferPoolManager.setFrame]
  | nil =>
    rw [hfl] at h
    dsimp only at h
    cases hev : bpm.replacer.evict with
    | none => rw [hev] at h; exact absurd h (by simp)
    | some p =>
      obtain ⟨f0, r1⟩ := p
      rw [hev] at h
      dsimp only at h
      rw [if_neg Bool.false_ne_true] at h
      cases hd : (bpm.frames f0).is_dirty with
      | true =>
        rw [hd, if_pos rfl] at h
        split at h
        · exact absurd h (by simp)
        · rename_i r'' heq
          obtain ⟨hts2, m, hm, hmev⟩ := setEvictable_false_after_record _ r'' f0 heq
          injection h with hpair
          injection hpair with h1 h2
          subst h1; subst h2
          refine ⟨f0, rfl, rfl, ?_, ?_, ?_, ?_, ?_, ⟨m, hm, hmev⟩, ?_⟩ <;>
            first
              | (rw [hts2]
                 exact congrArg (· + 1) (evict_preserves_timestamp bpm.replacer f0 r1 hev))
              | simp [BufferPoolManager.installMapping, BufferPoolManager.setFrame,
                  BufferPoolManager.eraseMapping, BufferPoolManager.diskWrite]
      | false =>
        rw [hd, if_neg Bool.false_ne_true] at h
        split at h
        · exact absurd h (by simp)
        · rename_i r'' heq
          obtain ⟨hts2, m, hm, hmev⟩ := setEvictable_false_after_record _ r'' f0 heq
          injection h with hpair
          injection hpair with h1 h2
          subst h1; subst h2
          refine ⟨f0, rfl, rfl, ?_, ?_, ?_, ?_, ?_, ⟨m, hm, hmev⟩, ?_⟩ <;>
            first
              | (rw [hts2]
                 exact congrArg (· + 1) (evict_preserves_timestamp bpm.replacer f0 r1 hev))
              | simp [BufferPoolManager.installMapping, BufferPoolManager.setFrame,
                  BufferPoolManager.eraseMapping, BufferPoolManager.diskWrite]

/-- On the eviction path with a dirty victim, `NewPage` writes the victim's
buffer back to the victim's page id. -/
theorem newPage_evict_dirty_writeback (bpm : BufferPoolManager) (fid : Nat)
    (r' : LRUKReplacer) (hfree : bpm.free_list = [])
    (hevict : bpm.replacer.evict = some (fid, r'))
    (hdirty : (bpm.frames fid).is_dirty = true)
    (s2 : BufferPoolManager) (pid2 : Int) (h : bpm.newPage = some (s2, pid2)) :
    s2.disk (bpm.frames fid).page_id = (bpm.frames fid).data := by
  unfold BufferPoolManager.newPage BufferPoolManager.selectFrame at h
  rw [hfree, hevict] at h
  dsimp only at h
  rw [hdirty] at h
  simp only [Bool.false_eq_true, if_false, if_true] at h
  split at h
  · exact absurd h (by simp)
  · rename_i r'' heq
    injection h with hpair
    injection hpair with h1 h2
    subst h1
    simp [BufferPoolManager.diskWrite, BufferPoolManager.eraseMapping,
      BufferPoolManager.installMapping, BufferPoolManager.setFrame]

/-! ## Claim theorems -/

/-- C10: calling `LRUKReplacer::Remove` with a frame id that has no node is
a silent no-op returning the state unchanged (`curr_size` included); a
present non-evictable node raises the usage error, and a present evictable
node is removed without error. -/
theorem lruk_remove_semantics_C10 (r : LRUKReplacer) (fid : Nat) :
    (r.findNode fid = none → r.remove fid = some r) ∧
    (∀ n, r.findNode fid = some n →
      (n.is_evictable = false → r.remove fid = none) ∧
      (n.is_evictable = true → ∃ r', r.remove fid = some r')) := by
  constructor
  · intro h
    unfold LRUKReplacer.remove
    rw [h]
  · intro n h
    constructor
    · intro hf
      unfold LRUKReplacer.remove
      rw [h]
      simp [hf]
    · intro ht
      unfold LRUKReplacer.remove
      rw [h]
      simp only [ht, if_true]
      exact ⟨_, rfl⟩

/-- Witness for C10 at concrete states: an empty replacer and one holding a
freshly recorded (hence non-evictable) node for frame 1. -/
theorem lruk_remove_semantics_C10_witness :
    (LRUKReplacer.new 3 2).remove 0 = some (LRUKReplacer.new 3 2) ∧
    ((LRUKReplacer.new 3 2).recordAccess 1).remove 1 = none := by
  constructor
  · exact (lruk_remove_semantics_C10 (LRUKReplacer.new 3 2) 0).1 (by decide)
  · exact ((lruk_remove_semantics_C10 ((LRUKReplacer.new 3 2).recordAccess 1) 1).2
      ⟨1, [0], false⟩ (by decide)).1 (by decide)

/-- C9: `FlushPage` on a mapped page writes a snapshot of the buffer to the
frame's page id and leaves every frame field (dirty flag, pin count, page
id, buffer) and the page table unchanged; consequently, when the frame was
dirty and a later `NewPage` evicts it, its contents are written to disk
again. -/
theorem bpm_flushPage_spec_C9 (bpm : BufferPoolManager) (pid : Int) (fid : Nat)
    (hmap : bpm.page_table pid = some fid) :
    bpm.flushPage pid =
      (true, bpm.diskWrite (bpm.frames fid).page_id (bpm.frames fid).data) ∧
    (bpm.flushPage pid).2.frames = bpm.frames ∧
    (bpm.flushPage pid).2.page_table = bpm.page_table ∧
    ((bpm.frames fid).is_dirty = true →
      ∀ r' s2 pid2,
        (bpm.flushPage pid).2.free_list = [] →
        (bpm.flushPage pid).2.replacer.evict = some (fid, r') →
        (bpm.flushPage pid).2.newPage = some (s2, pid2) →
        s2.disk (bpm.frames fid).page_id = (bpm.frames fid).data) := by
  have hflush : bpm.flushPage pid =
      (true, bpm.diskWrite (bpm.frames fid).page_id (bpm.frames fid).data) := by
    unfold BufferPoolManager.flushPage
    rw [hmap]
  refine ⟨hflush, by rw [hflush]; rfl, by rw [hflush]; rfl, ?_⟩
  intro hdirty r' s2 pid2 hfree hevict hnew
  rw [hflush] at hfree hevict hnew
  exact newPage_evict_dirty_writeback _ fid r' hfree hevict hdirty s2 pid2 hnew

/-- Counterexample to C3 as stated: on the eviction-reuse path, `NewPage`
does not clear the frame's buffer — the freshly returned page 1 still holds
the previous page's bytes `raw 65`. -/
theorem bpm_newPage_C3_counterexample :
    newPageScenarioPool.newPage = some (newPageScenarioAfter, 1) ∧
    newPageScenarioAfter.page_table 1 = some 0 ∧
    (newPageScenarioAfter.frames 0).data = PageData.raw 65 ∧
    (newPageScenarioAfter.frames 0).data ≠ PageData.zeroed := by
  have hdata : (newPageScenarioAfter.frames 0).data = PageData.raw 65 := rfl
  refine ⟨rfl, rfl, hdata, ?_⟩
  rw [hdata]
  exact fun hc => PageData.noConfusion hc

/-- Witness for the amended C3 at the concrete eviction-reuse scenario. -/
theorem bpm_newPage_spec_C3_witness :
    newPageSpecHolds newPageScenarioPool newPageScenarioAfter 1 :=
  bpm_newPage_spec_C3 newPageScenarioPool newPageScenarioAfter 1 rfl

/-- Witness for C9 at the concrete one-frame pool holding a dirty page. -/
theorem bpm_flushPage_spec_C9_witness :
    flushScenarioPool.flushPage 0 =
      (true, flushScenarioPool.diskWrite (flushScenarioPool.frames 0).page_id
        (flushScenarioPool.frames 0).data) :=
  (bpm_flushPage_spec_C9 flushScenarioPool 0 0 (by decide)).1

/-- A page-table hit in `FetchPage` pins the frame and swaps in the updated
replacer; no other field changes. -/
theorem fetchPage_hit (s : BufferPoolManager) (pid : Int) (fid : Nat) (r2 : LRUKReplacer)
    (hmap : s.page_table pid = some fid)
    (hset : (s.replacer.recordAccess fid).setEvictable fid false = some r2) :
    s.fetchPage pid = some
      ({ s with
         frames := fun j => if j = fid then
             { s.frames fid with pin_count := (s.frames fid).pin_count + 1 }
           else s.frames j,
         replacer := r2 }, fid) := by
  unfold BufferPoolManager.fetchPage
  rw [hmap]
  dsimp only [BufferPoolManager.setFrame]
  rw [hset]

/-- A successful `DeletePage` clears the frame, appends it to the free list
and swaps in the updated replacer; the page table is untouched. -/
theorem deletePage_ok (s : BufferPoolManager) (pid : Int) (fid : Nat) (r1 : LRUKReplacer)
    (hmap : s.page_table pid = some fid) (hpin : (s.frames fid).pin_count = 0)
    (hrem : s.replacer.remove fid = some r1) :
    s.deletePage pid = some (true,
      { s with
        frames := fun j => if j = fid then
            (⟨INVALID_PAGE_ID, 0, false, PageData.zeroed⟩ : Frame)
          else s.frames j,
        free_list := s.free_list ++ [fid],
        replacer := r1 }) := by
  unfold BufferPoolManager.deletePage
  rw [hmap]
  dsimp only [BufferPoolManager.setFrame]
  rw [hpin, if_neg (lt_irrefl 0), hrem]

/-- C8: after a successful `DeletePage` on a mapped, unpinned page, the
page-table entry for the page survives (only the frame's metadata is
cleared), so a subsequent `FetchPage` of that page id takes the
page-table-hit path and returns the freed frame — which simultaneously sits
on the free list — without scheduling any disk read. -/
theorem bpm_deletePage_fetch_C8 (bpm : BufferPoolManager) (pid : Int) (fid : Nat)
    (hmap : bpm.page_table pid = some fid)
    (hpin : (bpm.frames fid).pin_count = 0)
    (hrep : ∀ n, bpm.replacer.findNode fid = some n → n.is_evictable = true) :
    deleteFetchSpecHolds bpm pid fid := by
  have hremove : ∃ r', bpm.replacer.remove fid = some r' := by
    unfold LRUKReplacer.remove
    cases hfn : bpm.replacer.findNode fid with
    | none => exact ⟨_, rfl⟩
    | some n => exact ⟨_, by dsimp only; rw [if_pos (hrep n hfn)]⟩
  obtain ⟨r1, hr1⟩ := hremove
  have hdel := deletePage_ok bpm pid fid r1 hmap hpin hr1
  obtain ⟨n0, hn0⟩ := findNode_recordAccess r1 fid
  obtain ⟨r2, hr2, hfind2, hts2⟩ := setEvictable_of_found _ fid n0 hn0 false
  refine ⟨_, hdel, hmap, by simp, ?_⟩
  have hfetch := fetchPage_hit
    ({ bpm with
       frames := fun j => if j = fid then
           (⟨INVALID_PAGE_ID, 0, false, PageData.zeroed⟩ : Frame)
         else bpm.frames j,
       free_list := bpm.free_list ++ [fid],
       replacer := r1 }) pid fid r2 hmap hr2
  refine ⟨_, hfetch, rfl, rfl, by simp, by simp, by simp⟩

/-- Witness for C8 at the concrete three-frame pool. -/
theorem bpm_deletePage_fetch_C8_witness : deleteFetchSpecHolds deleteScenarioPool 0 0 := by
  refine bpm_deletePage_fetch_C8 deleteScenarioPool 0 0 (by decide) (by decide) ?_
  intro n hn
  have h0 : deleteScenarioPool.replacer.findNode 0 = some ⟨0, [0], true⟩ := by decide
  rw [h0] at hn
  cases hn
  rfl

/-- C1 (failing input): on the operation sequence `Insert(0, 100)`,
`Insert(1, 101)`, `Remove(1)`, the final `GetValue(0)` returns empty even
though `(0, 100)` was inserted, both inserts and the remove succeeded, and
no `Remove(0)` ever ran — the claimed round trip fails on the code. -/
theorem hash_roundtrip_C1_failing :
    scenarioGetValue scenarioAfterInserts 0 = some (true, [100]) ∧
    scenarioGetValue scenarioAfterInserts 1 = some (true, [101]) ∧
    scenarioAfterRemove.isSome = true ∧
    scenarioGetValue scenarioAfterRemove 0 = some (false, []) := by
  refine ⟨by decide, by decide, by decide, by decide⟩

/-- C2 (failing input): the merge performed by `Remove(1)` absorbs the
partner's entry into the surviving bucket (page 3) and deallocates the
partner page (page 2), and directory slot 0 is in the combined group (its
index agrees with slot 1 in the low `local_depth − 1 = 0` bits); yet the
update loop leaves slot 0 with local depth 1 and still pointing at the
deallocated page 2, instead of decrementing it and re-pointing it to the
surviving page 3 as the claim states. -/
theorem hash_merge_update_C2_failing :
    mergeSurvivorBucket = [(0, 100)] ∧
    mergePartnerFramePid = INVALID_PAGE_ID ∧
    mergedDir.global_depth = 1 ∧
    mergedDir.local_depths 1 = 0 ∧
    mergedDir.bucket_page_ids 1 = 3 ∧
    0 % 2 ^ (1 - 1) = 1 % 2 ^ (1 - 1) ∧
    mergedDir.local_depths 0 = 1 ∧
    mergedDir.bucket_page_ids 0 = 2 := by
  refine ⟨by decide, by decide, by decide, by decide, by decide, by decide,
    by decide, by decide⟩

/-- C5 (failing input): after the scenario's `Remove(1)`, the reachable
directory violates the claimed invariant: slots 0 and 1 agree in the low
`local_depth[1] = 0` bits but hold different bucket page ids (2 versus 3)
and different local depths (1 versus 0). -/
theorem hash_dir_invariant_C5_failing :
    scenarioAfterRemove.isSome = true ∧ ¬ dirInvariantHolds mergedDir := by
  refine ⟨by decide, ?_⟩
  intro h
  have h2 := h 1 0 (by decide) (by decide) (by decide)
  exact absurd h2.1 (by decide)

/-- Counterexample to C4 as stated: with `bucket_max_size = 1` and key 0
present (its bucket full), the duplicate `Insert(0, 999)` returns `false`
but grows the directory from global depth 0 to 1 — a duplicate insert on a
full bucket does trigger directory growth. -/
theorem hash_dup_insert_C4_counterexample :
    scenarioGetValue dupScenarioTable 0 = some (true, [100]) ∧
    dupBeforeDepth = some 0 ∧
    dupInsertResult = some (false, 1) := by
  refine ⟨by decide, by decide, by decide⟩

theorem lruLt_irrefl (k : Nat) (a : LRUKNode) : LRUKNode.lt k a a = false := by
  unfold LRUKNode.lt
  by_cases h : a.history.length < k <;> simp [h]

theorem lruLt_trans (k : Nat) (a b c : LRUKNode)
    (hab : LRUKNode.lt k a b = true) (hbc : LRUKNode.lt k b c = true) :
    LRUKNode.lt k a c = true := by
  unfold LRUKNode.lt at *
  by_cases ha : a.history.length < k <;> by_cases hb : b.history.length < k <;>
    by_cases hc : c.history.length < k <;>
    simp [ha, hb, hc] at * <;> omega

theorem lruLt_neg_trans (k : Nat) (a b c : LRUKNode)
    (hab : LRUKNode.lt k a b = false) (hbc : LRUKNode.lt k b c = false) :
    LRUKNode.lt k a c = false := by
  unfold LRUKNode.lt at *
  by_cases ha : a.history.length < k <;> by_cases hb : b.history.length < k <;>
    by_cases hc : c.history.length < k <;>
    simp [ha, hb, hc] at * <;> omega

theorem lruLt_asymm (k : Nat) (a b : LRUKNode)
    (hab : LRUKNode.lt k a b = true) : LRUKNode.lt k b a = false := by
  unfold LRUKNode.lt at *
  by_cases ha : a.history.length < k <;> by_cases hb : b.history.length < k <;>
    simp [ha, hb] at * <;> omega

theorem headD_mem {l : List Nat} (h : l ≠ []) : l.headD 0 ∈ l := by
  cases l with
  | nil => exact absurd rfl h
  | cons a t => simp

theorem getLastD_mem : ∀ {l : List Nat} (d : Nat), l ≠ [] → l.getLastD d ∈ l := by
  intro l
  induction l with
  | nil => intro d h; exact absurd rfl h
  | cons a t ih =>
    intro d _
    cases t with
    | nil => simp [List.getLastD]
    | cons b t2 =>
      rw [List.getLastD_cons]
      exact List.mem_cons_of_mem a (ih a (by simp))

/-- Losing to nobody (under the code's comparator) means being preferred
(in the spec's sense) over every other node, given distinct front/back
timestamps and timestamps below the current time. -/
theorem notLt_specPrefer (k ts : Nat) (v u : LRUKNode)
    (hne_v : v.history ≠ []) (hne_u : u.history ≠ [])
    (hts_v : ∀ t ∈ v.history, t < ts) (hts_u : ∀ t ∈ u.history, t < ts)
    (hback : v.history.getLastD 0 ≠ u.history.getLastD 0)
    (hfront : v.history.headD 0 ≠ u.history.headD 0)
    (h : LRUKNode.lt k u v = false) :
    specPrefer k ts v u := by
  have hv_front := hts_v _ (headD_mem hne_v)
  have hu_front := hts_u _ (headD_mem hne_u)
  set vb := v.history.getLastD 0 with hvb
  set ub := u.history.getLastD 0 with hub
  set vf := v.history.headD 0 with hvf
  set uf := u.history.headD 0 with huf
  unfold LRUKNode.lt at h
  unfold specPrefer backwardKDistance
  rw [← hvb, ← hub, ← hvf, ← huf] at h ⊢
  by_cases hv : v.history.length < k <;> by_cases hu : u.history.length < k <;>
    simp [hv, hu] at h ⊢ <;> omega

theorem findVictim_correct (k : Nat) (l : List LRUKNode) :
    ∀ (acc : Option LRUKNode) (res : LRUKNode),
      LRUKReplacer.findVictim k l acc = some res →
      (acc = some res ∨ (res ∈ l ∧ res.is_evictable = true)) ∧
      (∀ u ∈ l, u.is_evictable = true → LRUKNode.lt k u res = false) ∧
      (∀ v, acc = some v → LRUKNode.lt k v res = false) := by
  induction l with
  | nil =>
    intro acc res h
    refine ⟨Or.inl h, by simp, ?_⟩
    intro v hv
    rw [hv] at h
    cases h
    exact lruLt_irrefl k res
  | cons n rest ih =>
    intro acc res h
    unfold LRUKReplacer.findVictim at h
    by_cases hev : n.is_evictable = true
    · rw [if_pos hev] at h
      cases hacc : acc with
      | none =>
        rw [hacc] at h
        obtain ⟨h1, h2, h3⟩ := ih (some n) res h
        have hn_res : LRUKNode.lt k n res = false := h3 n rfl
        refine ⟨?_, ?_, by intro v hv; cases hv⟩
        · rcases h1 with h1 | h1
          · cases h1; exact Or.inr ⟨List.mem_cons_self n rest, hev⟩
          · exact Or.inr ⟨List.mem_cons_of_mem n h1.1, h1.2⟩
        · intro u hu huev
          rcases List.mem_cons.mp hu with rfl | hu
          · exact hn_res
          · exact h2 u hu huev
      | some v =>
        rw [hacc] at h
        dsimp only at h
        by_cases hlt : LRUKNode.lt k n v = true
        · rw [if_pos hlt] at h
          obtain ⟨h1, h2, h3⟩ := ih (some n) res h
          have hn_res : LRUKNode.lt k n res = false := h3 n rfl
          have hv_res : LRUKNode.lt k v res = false := by
            by_contra hc
            have hc' : LRUKNode.lt k v res = true := by
              cases hvr : LRUKNode.lt k v res
              · exact absurd hvr hc
              · rfl
            exact absurd (lruLt_trans k n v res hlt hc') (by rw [hn_res]; simp)
          refine ⟨?_, ?_, ?_⟩
          · rcases h1 with h1 | h1
            · cases h1; exact Or.inr ⟨List.mem_cons_self n rest, hev⟩
            · exact Or.inr ⟨List.mem_cons_of_mem n h1.1, h1.2⟩
          · intro u hu huev
            rcases List.mem_cons.mp hu with rfl | hu
            · exact hn_res
            · exact h2 u hu huev
          · intro w hw
            cases hw
            exact hv_res
        · have hlt' : LRUKNode.lt k n v = false := by
            cases hnv : LRUKNode.lt k n v
            · rfl
            · exact absurd hnv hlt
          rw [if_neg (by rw [hlt']; simp)] at h
          obtain ⟨h1, h2, h3⟩ := ih (some v) res h
          have hv_res : LRUKNode.lt k v res = false := h3 v rfl
          have hn_res : LRUKNode.lt k n res = false :=
            lruLt_neg_trans k n v res hlt' hv_res
          refine ⟨?_, ?_, ?_⟩
          · rcases h1 with h1 | h1
            · exact Or.inl h1
            · exact Or.inr ⟨List.mem_cons_of_mem n h1.1, h1.2⟩
          · intro u hu huev
            rcases List.mem_cons.mp hu with rfl | hu
            · exact hn_res
            · exact h2 u hu huev
          · intro w hw
            cases hw
            exact hv_res
    · rw [if_neg hev] at h
      obtain ⟨h1, h2, h3⟩ := ih acc res h
      refine ⟨?_, ?_, h3⟩
      · rcases h1 with h1 | h1
        · exact Or.inl h1
        · exact Or.inr ⟨List.mem_cons_of_mem n h1.1, h1.2⟩
      · intro u hu huev
        rcases List.mem_cons.mp hu with rfl | hu
        · exact absurd huev hev
        · exact h2 u hu huev

theorem findVictim_of_all_unevictable (k : Nat) (l : List LRUKNode)
    (h : ∀ n ∈ l, n.is_evictable = false) :
    ∀ acc, LRUKReplacer.findVictim k l acc = acc := by
  induction l with
  | nil => intro acc; rfl
  | cons n rest ih =>
    intro acc
    unfold LRUKReplacer.findVictim
    rw [if_neg (by rw [h n (List.mem_cons_self n rest)]; simp)]
    exact ih (fun m hm => h m (List.mem_cons_of_mem n hm)) acc

theorem findVictim_isSome (k : Nat) (l : List LRUKNode) :
    ∀ acc, (∃ n ∈ l, n.is_evictable = true) ∨ acc.isSome = true →
      (LRUKReplacer.findVictim k l acc).isSome = true := by
  induction l with
  | nil =>
    intro acc h
    rcases h with ⟨n, hn, _⟩ | h
    · exact absurd hn (by simp)
    · exact h
  | cons n rest ih =>
    intro acc h
    unfold LRUKReplacer.findVictim
    by_cases hev : n.is_evictable = true
    · rw [if_pos hev]
      cases acc with
      | none => exact ih (some n) (Or.inr rfl)
      | some v => exact ih _ (Or.inr (by cases LRUKNode.lt k n v <;> simp))
    · rw [if_neg hev]
      refine ih acc ?_
      rcases h with ⟨m, hm, hmev⟩ | h
      · rcases List.mem_cons.mp hm with rfl | hm
        · exact absurd hmev hev
        · exact Or.inl ⟨m, hm, hmev⟩
      · exact Or.inr h

/-- C6: for every replacer state whose node histories are well formed
(nonempty, strictly below the current timestamp, and pairwise disjoint
across nodes), `Evict` fails when no node is evictable; otherwise it
removes (erasing the node, decrementing `curr_size`) and returns the
evictable node with the largest backward K-distance, where fewer than K
accesses count as +infinity, ties among infinite distances go to the
smallest most-recent timestamp, and ties among finite distances to the
smallest K-th-from-last timestamp. -/
theorem lruk_evict_C6 (r : LRUKReplacer)
    (hne : ∀ n ∈ r.node_store, n.history ≠ [])
    (hts : ∀ n ∈ r.node_store, ∀ t ∈ n.history, t < r.current_timestamp)
    (hdisj : ∀ n ∈ r.node_store, ∀ m ∈ r.node_store, n ≠ m →
      ∀ t ∈ n.history, t ∉ m.history) :
    evictSpecHolds r := by
  constructor
  · intro hall
    unfold LRUKReplacer.evict
    rw [findVictim_of_all_unevictable r.k r.node_store hall none]
  · intro n hn hnev
    have hsome := findVictim_isSome r.k r.node_store none (Or.inl ⟨n, hn, hnev⟩)
    cases hres : LRUKReplacer.findVictim r.k r.node_store none with
    | none => rw [hres] at hsome; exact absurd hsome (by simp)
    | some res =>
      obtain ⟨h1, h2, h3⟩ := findVictim_correct r.k r.node_store none res hres
      have hres_mem : res ∈ r.node_store ∧ res.is_evictable = true := by
        rcases h1 with h1 | h1
        · cases h1
        · exact h1
      refine ⟨res, { r with
                     node_store := r.node_store.filter (fun m => m.fid != res.fid),
                     curr_size := r.curr_size - 1 },
        ?_, hres_mem.1, hres_mem.2, rfl, rfl, ?_⟩
      · unfold LRUKReplacer.evict
        rw [hres]
      · intro u hu huev hune
        have hne_res_u : res ≠ u := fun hq => hune hq.symm
        refine notLt_specPrefer r.k r.current_timestamp res u
          (hne res hres_mem.1) (hne u hu) (hts res hres_mem.1) (hts u hu)
          ?_ ?_ (h2 u hu huev)
        · intro heq
          exact hdisj res hres_mem.1 u hu hne_res_u _
            (getLastD_mem 0 (hne res hres_mem.1)) (heq ▸ getLastD_mem 0 (hne u hu))
        · intro heq
          exact hdisj res hres_mem.1 u hu hne_res_u _
            (headD_mem (hne res hres_mem.1)) (heq ▸ headD_mem (hne u hu))

/-- Witness for C6 at the concrete replacer of the spec's example: the node
with fewer than K accesses (frame 3) is the victim. -/
theorem lruk_evict_C6_witness : evictSpecHolds evictScenarioReplacer :=
  lruk_evict_C6 evictScenarioReplacer (by decide) (by decide) (by decide)

theorem childGet_childSet_same (l : List (Char × TrieNode)) (c : Char) (nd : TrieNode) :
    childGet (childSet l c nd) c = some nd := by
  induction l with
  | nil => simp [childSet, childGet]
  | cons p t ih =>
    obtain ⟨a, b⟩ := p
    by_cases h : a = c
    · simp [childSet, childGet, h]
    · simp [childSet, childGet, h, ih]

theorem childGet_childSet_other (l : List (Char × TrieNode)) (c c' : Char) (nd : TrieNode)
    (h : c' ≠ c) : childGet (childSet l c nd) c' = childGet l c' := by
  have h' : ¬ c = c' := fun he => h he.symm
  induction l with
  | nil => simp [childSet, childGet, h']
  | cons p t ih =>
    obtain ⟨a, b⟩ := p
    by_cases ha : a = c
    · subst ha
      simp [childSet, childGet, h']
    · simp [childSet, childGet, ha, ih]

theorem mem_keys_childSet (c : Char) (nd : TrieNode) :
    ∀ (l : List (Char × TrieNode)) (x : Char),
      x ∈ (childSet l c nd).map Prod.fst → x ∈ l.map Prod.fst ∨ x = c := by
  intro l
  induction l with
  | nil =>
    intro x h
    simp [childSet] at h
    exact Or.inr h
  | cons p t ih =>
    obtain ⟨a, b⟩ := p
    intro x h
    by_cases ha : a = c
    · subst ha
      simp only [childSet, eq_self_iff_true, if_true, List.map_cons, List.mem_cons] at h
      rcases h with h | h
      · exact Or.inr h
      · exact Or.inl (by simp only [List.map_cons, List.mem_cons]; exact Or.inr h)
    · simp only [childSet, if_neg ha, List.map_cons, List.mem_cons] at h
      rcases h with h | h
      · exact Or.inl (by simp [h])
      · rcases ih x h with hm2 | hm2
        · exact Or.inl (by simp only [List.map_cons, List.mem_cons]; exact Or.inr hm2)
        · exact Or.inr hm2

theorem nodup_childSet (l : List (Char × TrieNode)) (c : Char) (nd : TrieNode)
    (h : (l.map Prod.fst).Nodup) : ((childSet l c nd).map Prod.fst).Nodup := by
  induction l with
  | nil => simp [childSet]
  | cons p t ih =>
    obtain ⟨a, b⟩ := p
    simp only [List.map_cons, List.nodup_cons] at h
    by_cases ha : a = c
    · subst ha
      rw [show childSet ((a, b) :: t) a nd = (a, nd) :: t from by simp [childSet]]
      simp only [List.map_cons, List.nodup_cons]
      exact ⟨h.1, h.2⟩
    · simp only [childSet, if_neg ha, List.map_cons, List.nodup_cons]
      refine ⟨?_, ih h.2⟩
      intro hmem
      rcases mem_keys_childSet c nd t a hmem with hm | hm
      · exact h.1 hm
      · exact ha hm

theorem childGet_eq_none (l : List (Char × TrieNode)) (c : Char)
    (h : c ∉ l.map Prod.fst) : childGet l c = none := by
  induction l with
  | nil => rfl
  | cons p t ih =>
    obtain ⟨a, b⟩ := p
    simp only [List.map_cons, List.mem_cons] at h
    push_neg at h
    have ha : ¬ a = c := fun he => h.1 he.symm
    simp only [childGet, if_neg ha]
    exact ih h.2

theorem childGet_childErase (l : List (Char × TrieNode)) (c : Char)
    (h : (l.map Prod.fst).Nodup) : childGet (childErase l c) c = none := by
  induction l with
  | nil => rfl
  | cons p t ih =>
    obtain ⟨a, b⟩ := p
    simp only [List.map_cons, List.nodup_cons] at h
    by_cases ha : a = c
    · subst ha
      simp only [childErase, if_pos rfl]
      exact childGet_eq_none t a h.1
    · simp only [childErase, if_neg ha, childGet, if_neg ha]
      exact ih h.2

theorem childGet_mem (l : List (Char × TrieNode)) (c : Char) (ch : TrieNode)
    (h : childGet l c = some ch) : (c, ch) ∈ l := by
  induction l with
  | nil => cases h
  | cons p t ih =>
    obtain ⟨a, b⟩ := p
    by_cases ha : a = c
    · subst ha
      simp only [childGet, if_pos rfl] at h
      cases h
      exact List.mem_cons_self _ _
    · simp only [childGet, if_neg ha] at h
      exact List.mem_cons_of_mem _ (ih h)

theorem TrieNode.WF.nodup_keys {n : TrieNode} (h : n.WF) :
    (n.children.map Prod.fst).Nodup := by
  cases h with
  | mk v cs h1 h2 => exact h1

theorem TrieNode.WF.child {n : TrieNode} (h : n.WF) {c : Char} {ch : TrieNode}
    (hc : childGet n.children c = some ch) : ch.WF := by
  cases h with
  | mk v cs h1 h2 => exact h2 (c, ch) (childGet_mem cs c ch hc)

theorem wf_empty : TrieNode.WF (.mk none []) :=
  TrieNode.WF.mk none [] (by simp) (by simp)

theorem getGo_congr (a b : TrieNode) (h : a.children = b.children) :
    ∀ key : List Char, key ≠ [] → a.getGo key = b.getGo key := by
  intro key hk
  cases key with
  | nil => exact absurd rfl hk
  | cons c cs =>
    show (match childGet a.children c with
          | none => none
          | some ch => ch.getGo cs) =
         (match childGet b.children c with
          | none => none
          | some ch => ch.getGo cs)
    rw [h]

theorem getGo_emptyNode : ∀ key : List Char, TrieNode.getGo (.mk none []) key = none := by
  intro key
  cases key with
  | nil => rfl
  | cons c cs => rfl

theorem getGo_putGo (v : Nat) : ∀ (key : List Char) (n : TrieNode), key ≠ [] →
    (n.putGo key v).getGo key = some v := by
  intro key
  induction key with
  | nil => intro n h; exact absurd rfl h
  | cons c cs ih =>
    intro n _
    obtain ⟨nv, nc⟩ := n
    cases cs with
    | nil =>
      cases hg : childGet nc c with
      | none =>
        simp [TrieNode.putGo, TrieNode.children, TrieNode.value, hg, TrieNode.getGo,
          childGet_childSet_same]
      | some ch =>
        simp [TrieNode.putGo, TrieNode.children, TrieNode.value, hg, TrieNode.getGo,
          childGet_childSet_same]
    | cons c2 cs2 =>
      cases hg : childGet nc c with
      | none =>
        simp only [TrieNode.putGo, TrieNode.children, TrieNode.value, hg, TrieNode.getGo,
          childGet_childSet_same]
        exact ih _ (by simp)
      | some ch =>
        simp only [TrieNode.putGo, TrieNode.children, TrieNode.value, hg, TrieNode.getGo,
          childGet_childSet_same]
        exact ih _ (by simp)

theorem getGo_putGo_other (v2 : Nat) : ∀ (k2 k1 : List Char) (n : TrieNode),
    k2 ≠ [] → k1 ≠ k2 → (n.putGo k2 v2).getGo k1 = n.getGo k1 := by
  intro k2
  induction k2 with
  | nil => intro k1 n h _; exact absurd rfl h
  | cons c2 cs2 ih =>
    intro k1 n _ hne
    obtain ⟨nv, nc⟩ := n
    cases cs2 with
    | nil =>
      cases k1 with
      | nil =>
        cases hg : childGet nc c2 <;>
          simp [TrieNode.putGo, TrieNode.children, TrieNode.value, hg, TrieNode.getGo]
      | cons c1 cs1 =>
        by_cases hc : c1 = c2
        · subst hc
          have hcs1 : cs1 ≠ [] := fun hnil => hne (by rw [hnil])
          cases hg : childGet nc c1 with
          | none =>
            cases cs1 with
            | nil => exact absurd rfl hcs1
            | cons d ds =>
              simp [TrieNode.putGo, TrieNode.children, TrieNode.value, hg, TrieNode.getGo,
                childGet_childSet_same, childGet]
          | some ch =>
            obtain ⟨chv, chc⟩ := ch
            cases cs1 with
            | nil => exact absurd rfl hcs1
            | cons d ds =>
              simp [TrieNode.putGo, TrieNode.children, TrieNode.value, hg, TrieNode.getGo,
                childGet_childSet_same]
        · cases hg : childGet nc c2 <;>
            simp [TrieNode.putGo, TrieNode.children, TrieNode.value, hg, TrieNode.getGo,
              childGet_childSet_other _ _ _ _ hc]
    | cons c3 cs3 =>
      cases k1 with
      | nil =>
        cases hg : childGet nc c2 <;>
          simp [TrieNode.putGo, TrieNode.children, TrieNode.value, hg, TrieNode.getGo]
      | cons c1 cs1 =>
        by_cases hc : c1 = c2
        · subst hc
          have hcs : cs1 ≠ c3 :: cs3 := fun he => hne (by rw [he])
          cases hg : childGet nc c1 with
          | none =>
            simp only [TrieNode.putGo, TrieNode.children, TrieNode.value, TrieNode.getGo, hg,
              childGet_childSet_same]
            rw [ih cs1 _ (by simp) hcs, getGo_emptyNode]
          | some ch =>
            simp only [TrieNode.putGo, TrieNode.children, TrieNode.value, TrieNode.getGo, hg,
              childGet_childSet_same]
            exact ih cs1 ch (by simp) hcs
        · cases hg : childGet nc c2 <;>
            simp [TrieNode.putGo, TrieNode.children, TrieNode.value, hg, TrieNode.getGo,
              childGet_childSet_other _ _ _ _ hc]

theorem removeGo_cons_cons (n : TrieNode) (c c2 : Char) (cs2 : List Char) (child : TrieNode)
    (hg : childGet n.children c = some child) :
    n.removeGo (c :: c2 :: cs2) =
      (if (child.removeGo (c2 :: cs2)).1 then
         match (child.removeGo (c2 :: cs2)).2 with
         | none =>
           if n.children.length > 1 ∨ n.value.isSome then
             (true, some (.mk n.value (childErase n.children c)))
           else (true, none)
         | some nc2 => (true, some (.mk n.value (childSet n.children c nc2)))
       else (false, none)) := by
  simp only [TrieNode.removeGo, hg]

theorem removeGo_putGo (v : Nat) : ∀ (cs : List Char) (c : Char) (n : TrieNode), n.WF →
    ∃ res : Option TrieNode,
      (n.putGo (c :: cs) v).removeGo (c :: cs) = (true, res) ∧
      ∀ m, res = some m → m.getGo (c :: cs) = none := by
  intro cs
  induction cs with
  | nil =>
    intro c n hwf
    obtain ⟨nv, nc⟩ := n
    have hnodup : (nc.map Prod.fst).Nodup := TrieNode.WF.nodup_keys hwf
    cases hg : childGet nc c with
    | none =>
      by_cases hcond :
          (childSet nc c (TrieNode.mk (some v) [])).length > 1 ∨ nv.isSome = true
      · refine ⟨some (TrieNode.mk nv
            (childErase (childSet nc c (TrieNode.mk (some v) [])) c)), ?_, ?_⟩
        · simp [TrieNode.putGo, TrieNode.children, TrieNode.value, hg, TrieNode.removeGo,
            childGet_childSet_same, hcond]
        · intro m hm
          cases hm
          simp [TrieNode.getGo, TrieNode.children,
            childGet_childErase _ _ (nodup_childSet nc c _ hnodup)]
      · refine ⟨none, ?_, by intro m hm; cases hm⟩
        simp [TrieNode.putGo, TrieNode.children, TrieNode.value, hg, TrieNode.removeGo,
          childGet_childSet_same, hcond]
    | some ch =>
      obtain ⟨chv, chc⟩ := ch
      cases chc with
      | nil =>
        by_cases hcond :
            (childSet nc c (TrieNode.mk (some v) [])).length > 1 ∨ nv.isSome = true
        · refine ⟨some (TrieNode.mk nv
              (childErase (childSet nc c (TrieNode.mk (some v) [])) c)), ?_, ?_⟩
          · simp [TrieNode.putGo, TrieNode.children, TrieNode.value, hg, TrieNode.removeGo,
              childGet_childSet_same, hcond]
          · intro m hm
            cases hm
            simp [TrieNode.getGo, TrieNode.children,
              childGet_childErase _ _ (nodup_childSet nc c _ hnodup)]
        · refine ⟨none, ?_, by intro m hm; cases hm⟩
          simp [TrieNode.putGo, TrieNode.children, TrieNode.value, hg, TrieNode.removeGo,
            childGet_childSet_same, hcond]
      | cons q qs =>
        refine ⟨some (TrieNode.mk nv
            (childSet (childSet nc c (TrieNode.mk (some v) (q :: qs))) c
              (TrieNode.mk none (q :: qs)))), ?_, ?_⟩
        · simp [TrieNode.putGo, TrieNode.children, TrieNode.value, hg, TrieNode.removeGo,
            childGet_childSet_same]
        · intro m hm
          cases hm
          simp [TrieNode.getGo, TrieNode.children, TrieNode.value, childGet_childSet_same]
  | cons c2 cs2 ih =>
    intro c n hwf
    obtain ⟨nv, nc⟩ := n
    have hnodup : (nc.map Prod.fst).Nodup := TrieNode.WF.nodup_keys hwf
    cases hg : childGet nc c with
    | none =>
      obtain ⟨res2, hres2, hget2⟩ := ih c2 (TrieNode.mk none []) wf_empty
      have hstep := removeGo_cons_cons
        (TrieNode.mk nv (childSet nc c (TrieNode.putGo (TrieNode.mk none []) (c2 :: cs2) v)))
        c c2 cs2 (TrieNode.putGo (TrieNode.mk none []) (c2 :: cs2) v)
        (by simp [TrieNode.children, childGet_childSet_same])
      cases res2 with
      | some nc2 =>
        refine ⟨some (TrieNode.mk nv
            (childSet (childSet nc c (TrieNode.putGo (TrieNode.mk none []) (c2 :: cs2) v)) c
              nc2)), ?_, ?_⟩
        · simp only [TrieNode.putGo, TrieNode.children, TrieNode.value, hg]
          rw [hstep, hres2]
          simp [TrieNode.children, TrieNode.value]
        · intro m hm
          cases hm
          simp only [TrieNode.getGo, TrieNode.children, childGet_childSet_same]
          exact hget2 nc2 rfl
      | none =>
        by_cases hcond :
            (childSet nc c (TrieNode.putGo (TrieNode.mk none []) (c2 :: cs2) v)).length > 1 ∨
              nv.isSome = true
        · refine ⟨some (TrieNode.mk nv
              (childErase
                (childSet nc c (TrieNode.putGo (TrieNode.mk none []) (c2 :: cs2) v)) c)),
              ?_, ?_⟩
          · simp only [TrieNode.putGo, TrieNode.children, TrieNode.value, hg]
            rw [hstep, hres2]
            simp [TrieNode.children, TrieNode.value, hcond]
          · intro m hm
            cases hm
            simp [TrieNode.getGo, TrieNode.children,
              childGet_childErase _ _ (nodup_childSet nc c _ hnodup)]
        · refine ⟨none, ?_, by intro m hm; cases hm⟩
          simp only [TrieNode.putGo, TrieNode.children, TrieNode.value, hg]
          rw [hstep, hres2]
          simp [TrieNode.children, TrieNode.value, hcond]
    | some ch =>
      obtain ⟨res2, hres2, hget2⟩ := ih c2 ch (TrieNode.WF.child hwf hg)
      have hstep := removeGo_cons_cons
        (TrieNode.mk nv (childSet nc c (TrieNode.putGo ch (c2 :: cs2) v)))
        c c2 cs2 (TrieNode.putGo ch (c2 :: cs2) v)
        (by simp [TrieNode.children, childGet_childSet_same])
      cases res2 with
      | some nc2 =>
        refine ⟨some (TrieNode.mk nv
            (childSet (childSet nc c (TrieNode.putGo ch (c2 :: cs2) v)) c nc2)), ?_, ?_⟩
        · simp only [TrieNode.putGo, TrieNode.children, TrieNode.value, hg]
          rw [hstep, hres2]
          simp [TrieNode.children, TrieNode.value]
        · intro m hm
          cases hm
          simp only [TrieNode.getGo, TrieNode.children, childGet_childSet_same]
          exact hget2 nc2 rfl
      | none =>
        by_cases hcond :
            (childSet nc c (TrieNode.putGo ch (c2 :: cs2) v)).length > 1 ∨
              nv.isSome = true
        · refine ⟨some (TrieNode.mk nv
              (childErase (childSet nc c (TrieNode.putGo ch (c2 :: cs2) v)) c)), ?_, ?_⟩
          · simp only [TrieNode.putGo, TrieNode.children, TrieNode.value, hg]
            rw [hstep, hres2]
            simp [TrieNode.children, TrieNode.value, hcond]
          · intro m hm
            cases hm
            simp [TrieNode.getGo, TrieNode.children,
              childGet_childErase _ _ (nodup_childSet nc c _ hnodup)]
        · refine ⟨none, ?_, by intro m hm; cases hm⟩
          simp only [TrieNode.putGo, TrieNode.children, TrieNode.value, hg]
          rw [hstep, hres2]
          simp [TrieNode.children, TrieNode.value, hcond]

theorem putOp_nil_some (s : Trie) (R : TrieNode) (h : s.root = some R) (w : Nat) :
    s.putOp [] w = ⟨some (TrieNode.mk (some w) R.children)⟩ := by
  simp only [Trie.putOp, h]

theorem putOp_cons_some (s : Trie) (R : TrieNode) (h : s.root = some R)
    (c : Char) (cs : List Char) (w : Nat) :
    s.putOp (c :: cs) w = ⟨some (R.putGo (c :: cs) w)⟩ := by
  simp only [Trie.putOp, h]

/-- C7: on every well-formed trie, `Put(k, v)` followed by `Get(k)` yields
`v`; `Put(k, v)` followed by `Remove(k)` then `Get(k)` yields nothing; and
for distinct keys `k1 ≠ k2`, a later `Put(k2, v2)` does not disturb
`Get(k1)` after `Put(k1, v1)`. -/
theorem trie_ops_C7 (t : Trie) (k k1 k2 : List Char) (v v1 v2 : Nat)
    (hwf : t.WF) (hne : k1 ≠ k2) : trieSpecHolds t k k1 k2 v v1 v2 := by
  have hput_get : ∀ (s : Trie) (key : List Char) (w : Nat),
      (s.putOp key w).getOp key = some w := by
    intro s key w
    cases key with
    | nil =>
      cases hr : s.root <;>
        simp [Trie.putOp, hr, Trie.getOp, TrieNode.getGo, TrieNode.value]
    | cons c cs =>
      cases hr : s.root with
      | none =>
        simp only [Trie.putOp, hr, Trie.getOp]
        exact getGo_putGo w (c :: cs) ⟨none, []⟩ (by simp)
      | some n =>
        simp only [Trie.putOp, hr, Trie.getOp]
        exact getGo_putGo w (c :: cs) n (by simp)
  refine ⟨hput_get t k v, ?_, ?_⟩
  · cases k with
    | nil =>
      cases hr : t.root <;>
        simp [Trie.putOp, hr, Trie.removeOp, Trie.getOp, TrieNode.value, TrieNode.getGo]
    | cons c cs =>
      cases hr : t.root with
      | none =>
        obtain ⟨res, hrem, hget⟩ := removeGo_putGo v cs c ⟨none, []⟩ wf_empty
        cases res with
        | none => simp [Trie.putOp, hr, Trie.removeOp, hrem, Trie.getOp]
        | some m =>
          simp [Trie.putOp, hr, Trie.removeOp, hrem, Trie.getOp]
          exact hget m rfl
      | some n =>
        obtain ⟨res, hrem, hget⟩ := removeGo_putGo v cs c n (hwf n hr)
        cases res with
        | none => simp [Trie.putOp, hr, Trie.removeOp, hrem, Trie.getOp]
        | some m =>
          simp [Trie.putOp, hr, Trie.removeOp, hrem, Trie.getOp]
          exact hget m rfl
  · have hroot1 : ∃ R, (t.putOp k1 v1).root = some R := by
      cases k1 with
      | nil => cases hr : t.root <;> simp [Trie.putOp, hr]
      | cons c cs => cases hr : t.root <;> simp [Trie.putOp, hr]
    obtain ⟨R, hR⟩ := hroot1
    have hgR : R.getGo k1 = some v1 := by
      have h1 := hput_get t k1 v1
      simp only [Trie.getOp, hR] at h1
      exact h1
    cases k2 with
    | nil =>
      have hk1 : k1 ≠ [] := hne
      rw [putOp_nil_some _ R hR v2]
      simp only [Trie.getOp]
      rw [getGo_congr (TrieNode.mk (some v2) R.children) R rfl k1 hk1]
      exact hgR
    | cons c cs =>
      rw [putOp_cons_some _ R hR c cs v2]
      simp only [Trie.getOp]
      rw [getGo_putGo_other v2 (c :: cs) k1 R (by simp) hne]
      exact hgR

/-- Witness for C7 at the empty trie with keys `a`, `[]` and `b`. -/
theorem trie_ops_C7_witness :
    trieSpecHolds ⟨none⟩ [Char.ofNat 97] [] [Char.ofNat 98] 5 6 7 :=
  trie_ops_C7 ⟨none⟩ [Char.ofNat 97] [] [Char.ofNat 98] 5 6 7
    (fun n h => by cases h) (by decide)

theorem find?_map_update2 (l : List LRUKNode) (fid fid' : Nat) (g : LRUKNode → LRUKNode)
    (hg : ∀ n, (g n).fid = n.fid) :
    (l.map (fun n => if n.fid == fid then g n else n)).find? (fun n => n.fid == fid')
      = (l.find? (fun n => n.fid == fid')).map
          (fun n => if n.fid == fid then g n else n) := by
  induction l with
  | nil => rfl
  | cons a t ih =>
    simp only [List.map_cons]
    have hu : ((if (a.fid == fid) = true then g a else a).fid == fid')
        = (a.fid == fid') := by
      by_cases hf : (a.fid == fid) = true <;> simp [hf, hg]
    cases hpa : (a.fid == fid') with
    | true =>
      rw [@List.find?_cons_of_pos LRUKNode (fun n => n.fid == fid') _ _
            (hu.trans hpa),
          @List.find?_cons_of_pos LRUKNode (fun n => n.fid == fid') _ _ hpa]
      rfl
    | false =>
      rw [@List.find?_cons_of_neg LRUKNode (fun n => n.fid == fid') _ _
            (fun hc => Bool.false_ne_true ((hpa.symm.trans (hu.symm.trans hc)))),
          @List.find?_cons_of_neg LRUKNode (fun n => n.fid == fid') _ _
            (fun hc => Bool.false_ne_true (hpa.symm.trans hc))]
      exact ih

theorem hasNode_recordAccess (r : LRUKReplacer) (fid fid' : Nat)
    (h : (r.findNode fid').isSome = true) :
    ((r.recordAccess fid).findNode fid').isSome = true := by
  unfold LRUKReplacer.findNode at h ⊢
  unfold LRUKReplacer.recordAccess
  cases hf : r.findNode fid with
  | some n =>
    dsimp only
    rw [find?_map_update2 r.node_store fid fid'
        (fun n => LRUKNode.access r.k n r.current_timestamp) (fun _ => rfl)]
    cases hv : r.node_store.find? (fun n => n.fid == fid') with
    | none => rw [hv] at h; simp at h
    | some m => simp
  | none =>
    dsimp only
    rw [List.find?_append]
    cases hv : r.node_store.find? (fun n => n.fid == fid') with
    | none => rw [hv] at h; simp at h
    | some m => simp

theorem hasNode_setEvictable (r r' : LRUKReplacer) (fid : Nat) (b : Bool) (fid' : Nat)
    (hset : r.setEvictable fid b = some r')
    (h : (r.findNode fid').isSome = true) :
    (r'.findNode fid').isSome = true := by
  unfold LRUKReplacer.findNode at h ⊢
  unfold LRUKReplacer.setEvictable at hset
  cases hf : r.findNode fid with
  | none => rw [hf] at hset; cases hset
  | some n =>
    rw [hf] at hset
    injection hset with hset
    subst hset
    dsimp only
    rw [find?_map_update2 r.node_store fid fid'
        (fun m => (m.setFlag b).2) (fun _ => rfl)]
    cases hv : r.node_store.find? (fun n => n.fid == fid') with
    | none => rw [hv] at h; simp at h
    | some m => simp

/-- Components of the pool state preserved by `UnpinPage` on a mapped page
whose frame has a replacer node: everything except pin counts, dirty flags
and the replacer. -/
theorem unpin_components (s : BufferPoolManager) (pid : Int) (d : Bool) (f : Nat)
    (hm : s.page_table pid = some f)
    (hnode : (s.replacer.findNode f).isSome = true) :
    ∃ ok s', s.unpinPage pid d = some (ok, s') ∧
      (∀ i, (s'.frames i).data = (s.frames i).data) ∧
      s'.page_table = s.page_table ∧
      s'.next_page_id = s.next_page_id ∧
      s'.disk = s.disk ∧
      s'.read_log = s.read_log ∧
      (∀ f', (s.replacer.findNode f').isSome = true →
        (s'.replacer.findNode f').isSome = true) := by
  unfold BufferPoolManager.unpinPage
  rw [hm]
  dsimp only
  by_cases hz : ((s.frames f).pin_count == 0) = true
  · rw [if_pos hz]
    exact ⟨false, s, rfl, fun i => rfl, rfl, rfl, rfl, rfl, fun f' h' => h'⟩
  · rw [if_neg hz]
    by_cases hz1 : ((s.frames f).pin_count - 1 == 0) = true
    · rw [if_pos hz1]
      dsimp only [BufferPoolManager.setFrame]
      cases hset : s.replacer.setEvictable f true with
      | none =>
        exfalso
        unfold LRUKReplacer.setEvictable at hset
        cases hf : s.replacer.findNode f with
        | none => rw [hf] at hnode; simp at hnode
        | some n => rw [hf] at hset; cases hset
      | some r' =>
        refine ⟨true, _, rfl, ?_, rfl, rfl, rfl, rfl, ?_⟩
        · intro i
          by_cases hi : i = f <;> simp [hi]
        · intro f' h'
          exact hasNode_setEvictable s.replacer r' f true f' hset h'
    · rw [if_neg hz1]
      refine ⟨true, _, rfl, ?_, rfl, rfl, rfl, rfl, fun f' h' => h'⟩
      intro i
      by_cases hi : i = f <;> simp [BufferPoolManager.setFrame, hi]

/-- Components of the pool state preserved by a `FetchPage` hit, plus the
replacer-node facts the later unpin needs. -/
theorem fetch_components (s : BufferPoolManager) (pid : Int) (f : Nat)
    (hm : s.page_table pid = some f) :
    ∃ s', s.fetchPage pid = some (s', f) ∧
      (∀ i, (s'.frames i).data = (s.frames i).data) ∧
      s'.page_table = s.page_table ∧
      s'.next_page_id = s.next_page_id ∧
      s'.disk = s.disk ∧
      s'.read_log = s.read_log ∧
      (s'.replacer.findNode f).isSome = true ∧
      (∀ f', (s.replacer.findNode f').isSome = true →
        (s'.replacer.findNode f').isSome = true) := by
  obtain ⟨n0, hn0⟩ := findNode_recordAccess s.replacer f
  obtain ⟨r2, hr2, hfind2, hts2⟩ := setEvictable_of_found _ f n0 hn0 false
  refine ⟨_, fetchPage_hit s pid f r2 hm hr2, ?_, rfl, rfl, rfl, rfl, ?_, ?_⟩
  · intro i
    by_cases hi : i = f <;> simp [hi]
  · show (r2.findNode f).isSome = true
    rw [hfind2]
    rfl
  · intro f' h'
    show (r2.findNode f').isSome = true
    exact hasNode_setEvictable _ r2 f false f' hr2
      (hasNode_recordAccess s.replacer f f' h')

theorem readData_eq (s : BufferPoolManager) (pid : Int) (f : Nat) (d : PageData)
    (hm : s.page_table pid = some f) (hd : (s.frames f).data = d) :
    s.readData pid = d := by
  unfold BufferPoolManager.readData
  rw [hm]
  exact hd

theorem writeData_eq (s : BufferPoolManager) (pid : Int) (f : Nat) (d : PageData)
    (hm : s.page_table pid = some f) :
    s.writeData pid d = s.setFrame f { s.frames f with data := d } := by
  unfold BufferPoolManager.writeData
  rw [hm]

theorem insertToDirectory_dup_notfull (hF : Int → Nat) (bms : Nat) (fuel : Nat)
    (s : BufferPoolManager) (dir_pid : Int) (hash : Nat) (key value : Int)
    (fd fb : Nat) (dp : DirectoryPage) (b : BucketPage) (bpid : Int)
    (hfuel : fuel ≠ 0)
    (hmd : s.page_table dir_pid = some fd)
    (hdd : (s.frames fd).data = PageData.directory dp)
    (hbp : dp.getBucketPageId (dp.hashToBucketIndex hash) = bpid)
    (hbne : bpid ≠ INVALID_PAGE_ID)
    (hmb : s.page_table bpid = some fb)
    (hbd : (s.frames fb).data = PageData.bucket b)
    (hkey : b.array.any (fun e => e.1 == key) = true)
    (hnotfull : (b.array.length == b.max_size) = false) :
    ∃ s', insertToDirectory hF bms fuel s dir_pid hash key value = some (false, s') ∧
      (∀ i, (s'.frames i).data = (s.frames i).data) ∧
      s'.page_table = s.page_table ∧
      s'.next_page_id = s.next_page_id ∧
      s'.disk = s.disk ∧
      s'.read_log = s.read_log ∧
      (∀ f', (s.replacer.findNode f').isSome = true →
        (s'.replacer.findNode f').isSome = true) := by
  obtain ⟨m, rfl⟩ := Nat.exists_eq_succ_of_ne_zero hfuel
  obtain ⟨S1, hf1, hdata1, hpt1, hnext1, hdisk1, hlog1, hnode1, hpres1⟩ :=
    fetch_components s bpid fb hmb
  have hmb1 : S1.page_table bpid = some fb := by rw [hpt1]; exact hmb
  have hread_dir : (s.readData dir_pid).asDirectory = dp := by
    rw [readData_eq s dir_pid fd _ hmd hdd]
    rfl
  have hread_b : (S1.readData bpid).asBucket = b := by
    rw [readData_eq S1 bpid fb _ hmb1 ((hdata1 fb).trans hbd)]
    rfl
  have hnf : ¬ (b.isFull = true) := by
    unfold BucketPage.isFull
    intro hc
    exact Bool.false_ne_true (hnotfull.symm.trans hc)
  have hins : b.insert key value = (false, b) := by
    unfold BucketPage.insert
    rw [if_neg (fun hc => Bool.false_ne_true (hnotfull.symm.trans hc)), if_pos hkey]
  have hw : S1.writeData bpid (PageData.bucket b)
      = S1.setFrame fb { S1.frames fb with data := PageData.bucket b } :=
    writeData_eq S1 bpid fb _ hmb1
  have hmb2 : (S1.setFrame fb { S1.frames fb with data := PageData.bucket b }).page_table
      bpid = some fb := hmb1
  have hnode2 : ((S1.setFrame fb
      { S1.frames fb with data := PageData.bucket b }).replacer.findNode fb).isSome
      = true := hnode1
  obtain ⟨ok3, S3, hu3, hdata3, hpt3, hnext3, hdisk3, hlog3, hpres3⟩ :=
    unpin_components (S1.setFrame fb { S1.frames fb with data := PageData.bucket b })
      bpid true fb hmb2 hnode2
  refine ⟨S3, ?_, ?_, ?_, ?_, ?_, ?_, ?_⟩
  · simp only [insertToDirectory]
    rw [hread_dir, hbp]
    rw [if_neg hbne]
    rw [hf1]
    simp only [Option.bind_eq_bind, Option.some_bind, Option.pure_def]
    rw [hread_b]
    rw [if_pos hnf]
    rw [hins]
    dsimp only
    rw [hw]
    rw [hu3]
    simp only [Option.some_bind]
  · intro i
    rw [hdata3 i]
    simp only [BufferPoolManager.setFrame]
    by_cases hi : i = fb
    · rw [if_pos hi]
      subst hi
      exact hbd.symm
    · rw [if_neg hi]
      exact hdata1 i
  · rw [hpt3]; exact hpt1
  · rw [hnext3]; exact hnext1
  · rw [hdisk3]; exact hdisk1
  · rw [hlog3]; exact hlog1
  · intro f' h'
    exact hpres3 f' (hpres1 f' h')


/-- C4 (amended): `Insert` of a key already present in a bucket that is not
full returns `false` and leaves every observable component of the table
unchanged - every frame's buffer, the page table, the allocation counter,
the disk image and the scheduled-read log. -/
theorem hash_dup_insert_spec_C4
    (t : DiskExtendibleHashTable) (key value : Int)
    (fh fd fb : Nat) (dpid bpid : Int)
    (hp : HeaderPage) (dp : DirectoryPage) (b : BucketPage)
    (hmh : t.bpm.page_table t.header_page_id = some fh)
    (hhd : (t.bpm.frames fh).data = PageData.header hp)
    (hdp : hp.getDirectoryPageId (hp.hashToDirectoryIndex (t.hashOf key)) = dpid)
    (hdne : dpid ≠ INVALID_PAGE_ID)
    (hmd : t.bpm.page_table dpid = some fd)
    (hdd : (t.bpm.frames fd).data = PageData.directory dp)
    (hbp : dp.getBucketPageId (dp.hashToBucketIndex (t.hashOf key)) = bpid)
    (hbne : bpid ≠ INVALID_PAGE_ID)
    (hmb : t.bpm.page_table bpid = some fb)
    (hbd : (t.bpm.frames fb).data = PageData.bucket b)
    (hkey : b.array.any (fun e => e.1 == key) = true)
    (hnotfull : (b.array.length == b.max_size) = false) :
    ∃ t', t.insertOp key value = some (false, t') ∧
      (∀ i, (t'.bpm.frames i).data = (t.bpm.frames i).data) ∧
      t'.bpm.page_table = t.bpm.page_table ∧
      t'.bpm.next_page_id = t.bpm.next_page_id ∧
      t'.bpm.disk = t.bpm.disk ∧
      t'.bpm.read_log = t.bpm.read_log ∧
      t'.header_page_id = t.header_page_id := by
  simp only [DiskExtendibleHashTable.hashOf] at hdp hbp
  obtain ⟨S1, hf1, hdata1, hpt1, hnext1, hdisk1, hlog1, hnodeh1, hpres1⟩ :=
    fetch_components t.bpm t.header_page_id fh hmh
  have hread_h : (S1.readData t.header_page_id).asHeader = hp := by
    rw [readData_eq S1 t.header_page_id fh _ (by rw [hpt1]; exact hmh)
        ((hdata1 fh).trans hhd)]
    rfl
  have hmd1 : S1.page_table dpid = some fd := by rw [hpt1]; exact hmd
  obtain ⟨S2, hf2, hdata2, hpt2, hnext2, hdisk2, hlog2, hnoded2, hpres2⟩ :=
    fetch_components S1 dpid fd hmd1
  have hmh2 : S2.page_table t.header_page_id = some fh := by
    rw [hpt2, hpt1]; exact hmh
  obtain ⟨ok3, S3, hu3, hdata3, hpt3, hnext3, hdisk3, hlog3, hpres3⟩ :=
    unpin_components S2 t.header_page_id true fh hmh2 (hpres2 fh hnodeh1)
  have hmd3 : S3.page_table dpid = some fd := by rw [hpt3, hpt2]; exact hmd1
  have hdd3 : (S3.frames fd).data = PageData.directory dp := by
    rw [hdata3 fd, hdata2 fd, hdata1 fd]; exact hdd
  have hmb3 : S3.page_table bpid = some fb := by rw [hpt3, hpt2, hpt1]; exact hmb
  have hbd3 : (S3.frames fb).data = PageData.bucket b := by
    rw [hdata3 fb, hdata2 fb, hdata1 fb]; exact hbd
  obtain ⟨S6, hins6, hdata6, hpt6, hnext6, hdisk6, hlog6, hpres6⟩ :=
    insertToDirectory_dup_notfull (fun k => t.hash_fn k % 2 ^ 32) t.bucket_max_size
      (t.directory_max_depth + 2) S3 dpid (t.hash_fn key % 2 ^ 32) key value
      fd fb dp b bpid (by simp) hmd3 hdd3 hbp hbne hmb3 hbd3 hkey hnotfull
  have hmd6 : S6.page_table dpid = some fd := by rw [hpt6]; exact hmd3
  have hnoded6 : (S6.replacer.findNode fd).isSome = true :=
    hpres6 fd (hpres3 fd hnoded2)
  obtain ⟨ok7, S7, hu7, hdata7, hpt7, hnext7, hdisk7, hlog7, hpres7⟩ :=
    unpin_components S6 dpid true fd hmd6 hnoded6
  refine ⟨{ t with bpm := S7 }, ?_, ?_, ?_, ?_, ?_, ?_, rfl⟩
  · unfold DiskExtendibleHashTable.insertOp
    rw [hf1]
    simp only [Option.bind_eq_bind, Option.some_bind, Option.pure_def]
    rw [hread_h, hdp]
    rw [if_neg hdne]
    rw [hf2]
    simp only [Option.some_bind]
    rw [hu3]
    simp only [Option.some_bind]
    rw [hins6]
    simp only [Option.some_bind]
    rw [hu7]
    simp only [Option.some_bind]
  · intro i
    show (S7.frames i).data = (t.bpm.frames i).data
    rw [hdata7 i, hdata6 i, hdata3 i, hdata2 i, hdata1 i]
  · show S7.page_table = t.bpm.page_table
    rw [hpt7, hpt6, hpt3, hpt2, hpt1]
  · show S7.next_page_id = t.bpm.next_page_id
    rw [hnext7, hnext6, hnext3, hnext2, hnext1]
  · show S7.disk = t.bpm.disk
    rw [hdisk7, hdisk6, hdisk3, hdisk2, hdisk1]
  · show S7.read_log = t.bpm.read_log
    rw [hlog7, hlog6, hlog3, hlog2, hlog1]


/-- The duplicate insert `Insert(0, 999)` on that table returns `false` and
changes nothing observable. -/
theorem hash_dup_insert_spec_C4_witness :
    ∃ t', dupSpecTable.insertOp 0 999 = some (false, t') ∧
      (∀ i, (t'.bpm.frames i).data = (dupSpecTable.bpm.frames i).data) ∧
      t'.bpm.page_table = dupSpecTable.bpm.page_table ∧
      t'.bpm.next_page_id = dupSpecTable.bpm.next_page_id ∧
      t'.bpm.disk = dupSpecTable.bpm.disk ∧
      t'.bpm.read_log = dupSpecTable.bpm.read_log ∧
      t'.header_page_id = dupSpecTable.header_page_id :=
  hash_dup_insert_spec_C4 dupSpecTable 0 999 0 1 2 1 2
    ((dupSpecTable.bpm.frames 0).data.asHeader)
    ((dupSpecTable.bpm.frames 1).data.asDirectory)
    ((dupSpecTable.bpm.frames 2).data.asBucket)
    rfl rfl rfl (by decide) rfl rfl rfl (by decide) rfl rfl rfl rfl

end BusTub
